import Mathlib

/-!
Verification of the message reassembly and dispatch core of the
`py-custom-agent` repository.

The development shallowly embeds the Python source:
  * `src/client.py` — `WebSocketClient.handle_message`,
    `WebSocketClient.reconstruct_fragments`, `WebSocketClient.run`;
  * `src/utils.py`  — `is_fragmented_message`, `extract_json_from_text`;
  * `src/agent.py`  — `OllamaAgent.process_message`.

JSON values decoded by `json.loads` are modelled by the inductive `JVal`
(JSON numbers are modelled as integers; no claim involves floating point).
Python dictionaries are insertion-ordered association lists.  Python
runtime errors (`TypeError` when `<` or `in` is applied to incomparable
or non-container operands, `AttributeError` when `.get` is called on a
non-dict) are modelled with `Except PyErr`.
-/


/-- A decoded JSON value (the result of a successful `json.loads`). -/
inductive JVal where
  | null : JVal
  | bool : Bool → JVal
  | num : Int → JVal
  | str : String → JVal
  | arr : List JVal → JVal
  | obj : List (String × JVal) → JVal
  deriving Repr

/-- Python runtime errors that the embedded code can raise. -/
inductive PyErr where
  | typeError : PyErr
  | attributeError : PyErr
  deriving DecidableEq, Repr

mutual

/-- Decidable equality for `JVal` (written by hand because the automatic
deriving does not support this nested inductive). -/
def decEqJ : (a b : JVal) → Decidable (a = b)
  | .null, .null => isTrue rfl
  | .bool a, .bool b =>
    match decEq a b with
    | isTrue h => isTrue (by rw [h])
    | isFalse h => isFalse (by intro hc; cases hc; exact h rfl)
  | .num a, .num b =>
    match decEq a b with
    | isTrue h => isTrue (by rw [h])
    | isFalse h => isFalse (by intro hc; cases hc; exact h rfl)
  | .str a, .str b =>
    match decEq a b with
    | isTrue h => isTrue (by rw [h])
    | isFalse h => isFalse (by intro hc; cases hc; exact h rfl)
  | .arr a, .arr b =>
    match decEqJL a b with
    | isTrue h => isTrue (by rw [h])
    | isFalse h => isFalse (by intro hc; cases hc; exact h rfl)
  | .obj a, .obj b =>
    match decEqJO a b with
    | isTrue h => isTrue (by rw [h])
    | isFalse h => isFalse (by intro hc; cases hc; exact h rfl)
  | .null, .bool _ | .null, .num _ | .null, .str _ | .null, .arr _ | .null, .obj _
  | .bool _, .null | .bool _, .num _ | .bool _, .str _ | .bool _, .arr _ | .bool _, .obj _
  | .num _, .null | .num _, .bool _ | .num _, .str _ | .num _, .arr _ | .num _, .obj _
  | .str _, .null | .str _, .bool _ | .str _, .num _ | .str _, .arr _ | .str _, .obj _
  | .arr _, .null | .arr _, .bool _ | .arr _, .num _ | .arr _, .str _ | .arr _, .obj _
  | .obj _, .null | .obj _, .bool _ | .obj _, .num _ | .obj _, .str _ | .obj _, .arr _ =>
    isFalse (by intro hc; exact JVal.noConfusion hc)

def decEqJL : (a b : List JVal) → Decidable (a = b)
  | [], [] => isTrue rfl
  | [], _ :: _ => isFalse (by intro hc; exact List.noConfusion hc)
  | _ :: _, [] => isFalse (by intro hc; exact List.noConfusion hc)
  | x :: xs, y :: ys =>
    match decEqJ x y with
    | isTrue h1 =>
      match decEqJL xs ys with
      | isTrue h2 => isTrue (by rw [h1, h2])
      | isFalse h2 => isFalse (by intro hc; cases hc; exact h2 rfl)
    | isFalse h1 => isFalse (by intro hc; cases hc; exact h1 rfl)

def decEqJO : (a b : List (String × JVal)) → Decidable (a = b)
  | [], [] => isTrue rfl
  | [], _ :: _ => isFalse (by intro hc; exact List.noConfusion hc)
  | _ :: _, [] => isFalse (by intro hc; exact List.noConfusion hc)
  | (k, v) :: xs, (k', v') :: ys =>
    match decEq k k' with
    | isTrue hk =>
      match decEqJ v v' with
      | isTrue h1 =>
        match decEqJO xs ys with
        | isTrue h2 => isTrue (by rw [hk, h1, h2])
        | isFalse h2 => isFalse (by intro hc; cases hc; exact h2 rfl)
      | isFalse h1 => isFalse (by intro hc; cases hc; exact h1 rfl)
    | isFalse hk => isFalse (by intro hc; cases hc; exact hk rfl)

end

instance : DecidableEq JVal := decEqJ

namespace JVal

/-- Python truthiness of a decoded JSON value: `bool(x)`. -/
def pyTruthy : JVal → Bool
  | .null => false
  | .bool b => b
  | .num n => n != 0
  | .str s => s != ""
  | .arr xs => !xs.isEmpty
  | .obj kvs => !kvs.isEmpty

/-- First-match lookup in an insertion-ordered dict (`d[k]` / `d.get(k)`). -/
def lookupKV (kvs : List (String × JVal)) (k : String) : Option JVal :=
  match kvs with
  | [] => none
  | (k', v) :: rest => if k' = k then some v else lookupKV rest k

/-- Python `repr` of a string: quoted, with backslash and quote escapes
(printable characters only, which covers every string in this development). -/
def strReprPy (s : String) : String :=
  let q : Char := if s.toList.contains '\x27' && !(s.toList.contains '"') then '"' else '\x27'
  let esc : Char → String := fun c =>
    if c = '\\' then "\\\\"
    else if c = q then "\\" ++ String.mk [q]
    else if c = '\n' then "\\n"
    else if c = '\r' then "\\r"
    else if c = '\t' then "\\t"
    else String.mk [c]
  String.mk [q] ++ String.join (s.toList.map esc) ++ String.mk [q]

mutual

/-- Python `repr()` of a decoded JSON value (`str()` of a dict or list
uses `repr` of the elements). -/
def pyRepr : JVal → String
  | .null => "None"
  | .bool true => "True"
  | .bool false => "False"
  | .num n => toString n
  | .str s => strReprPy s
  | .arr xs => "[" ++ String.intercalate ", " (pyReprL xs) ++ "]"
  | .obj kvs => "\x7b" ++ String.intercalate ", " (pyReprO kvs) ++ "\x7d"

def pyReprL : List JVal → List String
  | [] => []
  | v :: vs => pyRepr v :: pyReprL vs

def pyReprO : List (String × JVal) → List String
  | [] => []
  | (k, v) :: kvs => (strReprPy k ++ ": " ++ pyRepr v) :: pyReprO kvs

end

/-- Python `str()` of a decoded JSON value: the string itself for strings,
`repr` otherwise. -/
def pyStrOf : JVal → String
  | .str s => s
  | v => pyRepr v

/-- `int(b)` for a Python bool, used where bools mix with numbers. -/
def bInt (b : Bool) : Int := if b then 1 else 0

mutual

/-- Python `==` between decoded JSON values (bools compare numerically
with numbers; dict equality is modelled structurally, which agrees with
Python on dicts built in the same key order). -/
def pyEq : JVal → JVal → Bool
  | .null, .null => true
  | .bool a, .bool b => a == b
  | .bool a, .num b => bInt a == b
  | .num a, .bool b => a == bInt b
  | .num a, .num b => a == b
  | .str a, .str b => a == b
  | .arr a, .arr b => pyEqL a b
  | .obj a, .obj b => decide (a = b)
  | _, _ => false

def pyEqL : List JVal → List JVal → Bool
  | [], [] => true
  | x :: xs, y :: ys => pyEq x y && pyEqL xs ys
  | _, _ => false

end

mutual

/-- Python `<` between decoded JSON values.  Comparing values of
incomparable types (and any comparison involving `None` or a dict)
raises `TypeError`. -/
def pyLt : JVal → JVal → Except PyErr Bool
  | .num a, .num b => .ok (decide (a < b))
  | .num a, .bool b => .ok (decide (a < bInt b))
  | .bool a, .num b => .ok (decide (bInt a < b))
  | .bool a, .bool b => .ok (decide (bInt a < bInt b))
  | .str a, .str b => .ok (decide (a < b))
  | .arr a, .arr b => pyLtL a b
  | _, _ => .error .typeError

/-- Python `<` on lists: lexicographic, comparing the first non-equal pair. -/
def pyLtL : List JVal → List JVal → Except PyErr Bool
  | [], [] => .ok false
  | [], _ :: _ => .ok true
  | _ :: _, [] => .ok false
  | x :: xs, y :: ys => if pyEq x y then pyLtL xs ys else pyLt x y

end

/-- Whether `pat` occurs as a contiguous sublist of `l`. -/
def occursIn (pat : List Char) : List Char → Bool
  | [] => pat.isEmpty
  | c :: rest => pat.isPrefixOf (c :: rest) || occursIn pat rest

/-- Whether `pat` occurs as a substring of `s`, modelling Python
`pat in s`. -/
def strContainsSub (s pat : String) : Bool := occursIn pat.toList s.toList

/-- Python `key in data` for a string `key`: key membership for a dict,
substring test for a string, element membership for a list, and
`TypeError` for non-container values. -/
def pyIn (key : String) (data : JVal) : Except PyErr Bool :=
  match data with
  | .obj kvs => .ok (kvs.any (fun p => p.1 == key))
  | .str s => .ok (strContainsSub s key)
  | .arr xs => .ok (xs.any (fun x => pyEq x (.str key)))
  | _ => .error .typeError

/-- Python `data.get(k, default)`: presence-based lookup on a dict,
`AttributeError` when `data` is not a dict. -/
def dGetD (data : JVal) (k : String) (default : JVal) : Except PyErr JVal :=
  match data with
  | .obj kvs => .ok ((lookupKV kvs k).getD default)
  | _ => .error .attributeError

/-- `data.get(k)` with a `None` default, for places where `data` is known
to be a dict (non-dicts yield `None`, unreachable at those call sites). -/
def getNull (data : JVal) (k : String) : JVal :=
  match data with
  | .obj kvs => (lookupKV kvs k).getD .null
  | _ => .null

/-- Python `a or b` on values: `a` if truthy, else `b`. -/
def pyOr (a b : JVal) : JVal := if a.pyTruthy then a else b

end JVal

open JVal

/-- `src/utils.py` line 142: `fragment_keys`. -/
def fragmentKeys : List String := ["fragment", "sequence", "part", "chunk", "index"]

/-- `src/utils.py` line 143: `total_keys`. -/
def totalKeys : List String := ["total", "total_fragments", "total_parts", "count"]

/-- Short-circuiting `any(key in data for key in keys)`. -/
def anyKeyIn (keys : List String) (data : JVal) : Except PyErr Bool :=
  match keys with
  | [] => .ok false
  | k :: rest =>
    match pyIn k data with
    | .error e => .error e
    | .ok true => .ok true
    | .ok false => anyKeyIn rest data

/-- `src/utils.py` `is_fragmented_message` (lines 131-153): fragment-key or
total-key present, or a timestamp together with an `id`/`message_id`. -/
def is_fragmented_message (data : JVal) : Except PyErr Bool :=
  match anyKeyIn fragmentKeys data with
  | .error e => .error e
  | .ok hasFrag =>
    match anyKeyIn totalKeys data with
    | .error e => .error e
    | .ok hasTotal =>
      match pyIn "timestamp" data with
      | .error e => .error e
      | .ok hasTs =>
        match pyIn "id" data with
        | .error e => .error e
        | .ok true => .ok (hasFrag || hasTotal || hasTs)
        | .ok false =>
          match pyIn "message_id" data with
          | .error e => .error e
          | .ok hasId2 => .ok (hasFrag || hasTotal || (hasTs && hasId2))

/-- `src/client.py` line 102: `data.get('id', data.get('message_id', 'default'))`
(the inner default is evaluated first, as in Python). -/
def idChainE (data : JVal) : Except PyErr JVal :=
  match dGetD data "message_id" (.str "default") with
  | .error e => .error e
  | .ok inner => dGetD data "id" inner

/-- `src/client.py` line 110:
`data.get('total', data.get('total_fragments', data.get('count', 0)))`. -/
def totalChainE (data : JVal) : Except PyErr JVal :=
  match dGetD data "count" (.num 0) with
  | .error e => .error e
  | .ok d2 =>
    match dGetD data "total_fragments" d2 with
    | .error e => .error e
    | .ok d1 => dGetD data "total" d1

/-- `src/client.py` line 55: the sort key
`x.get('sequence', x.get('timestamp', x.get('index', 0)))`. -/
def seqChainE (x : JVal) : Except PyErr JVal :=
  match dGetD x "index" (.num 0) with
  | .error e => .error e
  | .ok d2 =>
    match dGetD x "timestamp" d2 with
    | .error e => .error e
    | .ok d1 => dGetD x "sequence" d1

/-- `src/client.py` lines 62-66: per-fragment content extraction,
`frag.get('text') or frag.get('content') or frag.get('message') or
frag.get('data') or str(frag)` (`or` short-circuits on the first truthy value). -/
def extractE (f : JVal) : Except PyErr JVal :=
  match dGetD f "text" .null with
  | .error e => .error e
  | .ok t =>
    if t.pyTruthy then .ok t else
    match dGetD f "content" .null with
    | .error e => .error e
    | .ok c =>
      if c.pyTruthy then .ok c else
      match dGetD f "message" .null with
      | .error e => .error e
      | .ok m =>
        if m.pyTruthy then .ok m else
        match dGetD f "data" .null with
        | .error e => .error e
        | .ok d =>
          if d.pyTruthy then .ok d else .ok (.str (pyStrOf f))

/-- `sorted`'s decoration pass: the key function is evaluated on every
element, in list order, before any comparison happens. -/
def decorateE : List JVal → Except PyErr (List (JVal × JVal))
  | [] => .ok []
  | f :: fs =>
    match seqChainE f with
    | .error e => .error e
    | .ok k =>
      match decorateE fs with
      | .error e => .error e
      | .ok rest => .ok ((f, k) :: rest)

/-- Stable ordered insert of a keyed element: the new element is placed
before the first element whose key is strictly greater (so an element
arriving later lands after key-equal ones, as in Python's stable sort).
Key comparison can raise `TypeError`. -/
def orderedInsertE (y : JVal × JVal) : List (JVal × JVal) → Except PyErr (List (JVal × JVal))
  | [] => .ok [y]
  | x :: xs =>
    match pyLt y.2 x.2 with
    | .error e => .error e
    | .ok true => .ok (y :: x :: xs)
    | .ok false =>
      match orderedInsertE y xs with
      | .error e => .error e
      | .ok r => .ok (x :: r)

/-- Insertion-sort loop for `sorted(fragments, key=...)` over decorated pairs. -/
def sortAuxE : List (JVal × JVal) → List (JVal × JVal) → Except PyErr (List (JVal × JVal))
  | [], acc => .ok acc
  | y :: ys, acc =>
    match orderedInsertE y acc with
    | .error e => .error e
    | .ok acc' => sortAuxE ys acc'

/-- `sorted(fragments, key=lambda x: x.get('sequence', ...))`: a stable
ascending sort by the resolved sequence key. -/
def sortByKeyE (l : List (JVal × JVal)) : Except PyErr (List (JVal × JVal)) :=
  sortAuxE l []

/-- `src/client.py` lines 59-68: extract the content of each sorted
fragment and keep the truthy ones, converted with `str()`. -/
def gatherTexts : List (JVal × JVal) → Except PyErr (List String)
  | [] => .ok []
  | p :: ps =>
    match extractE p.1 with
    | .error e => .error e
    | .ok t =>
      match gatherTexts ps with
      | .error e => .error e
      | .ok rest => .ok (if t.pyTruthy then pyStrOf t :: rest else rest)

/-- `src/client.py` `WebSocketClient.reconstruct_fragments` (lines 39-75):
sort the accumulated fragments by sequence key, extract the content of
each, and join with single spaces; `None` for an empty fragment list or
when no fragment contributes a truthy text. -/
def reconstruct_fragments (frags : List JVal) : Except PyErr (Option String) :=
  if frags.isEmpty then .ok none
  else
    match decorateE frags with
    | .error e => .error e
    | .ok pairs =>
      match sortByKeyE pairs with
      | .error e => .error e
      | .ok sortedPairs =>
        match gatherTexts sortedPairs with
        | .error e => .error e
        | .ok texts =>
          if texts.isEmpty then .ok none
          else .ok (some (String.intercalate " " texts))

/-- The mutable state of a `WebSocketClient`: the fragment-reconstruction
switch, the per-group fragment accumulators (`self.fragments`, an
insertion-ordered dict keyed by the group id), and `self.message_buffer`. -/
structure ClientState where
  enableFragments : Bool
  fragments : List (JVal × List JVal)
  messageBuffer : List JVal
  deriving DecidableEq, Repr

/-- Lookup in `self.fragments` (first match, dict semantics). -/
def lookupGroups (d : List (JVal × List JVal)) (k : JVal) : Option (List JVal) :=
  match d with
  | [] => none
  | (k', v) :: rest => if k' = k then some v else lookupGroups rest k

/-- `self.fragments[k] = v`: replace in place when the key exists,
otherwise append the new entry (dict insertion order). -/
def setGroups (d : List (JVal × List JVal)) (k : JVal) (v : List JVal) :
    List (JVal × List JVal) :=
  match d with
  | [] => [(k, v)]
  | (k', v') :: rest =>
    if k' = k then (k, v) :: rest else (k', v') :: setGroups rest k v

/-- The accumulator of group `k` (empty when the group does not exist). -/
def groupOf (st : ClientState) (k : JVal) : List JVal :=
  (lookupGroups st.fragments k).getD []

/-- The non-fragment branch of `handle_message` (`src/client.py` lines
123-131): extract `message`/`text`/`content` from a dict (falling back to
`str(data)`), or `str(data)` for a non-dict. -/
def nonFragResult (st1 : ClientState) (data : JVal) : Except PyErr (ClientState × Option JVal) :=
  match data with
  | .obj _ =>
    .ok (st1, some (pyOr (getNull data "message")
      (pyOr (getNull data "text")
        (pyOr (getNull data "content") (.str (pyRepr data))))))
  | _ => .ok (st1, some (.str (pyStrOf data)))

/-- `src/client.py` `WebSocketClient.handle_message` (lines 77-131) on a
frame that parsed as JSON: buffer the value; on the fragment path,
append to the group's accumulator and, when the current fragment's
declared total is positive and is reached, reconstruct and clear the
group; otherwise extract a message from the record. -/
def handleJson (st : ClientState) (data : JVal) : Except PyErr (ClientState × Option JVal) :=
  let st1 : ClientState := { st with messageBuffer := st.messageBuffer ++ [data] }
  match (if st1.enableFragments then is_fragmented_message data else .ok false) with
  | .error e => .error e
  | .ok false => nonFragResult st1 data
  | .ok true =>
    match idChainE data with
    | .error e => .error e
    | .ok fid =>
      let newList := (lookupGroups st1.fragments fid).getD [] ++ [data]
      let st2 : ClientState := { st1 with fragments := setGroups st1.fragments fid newList }
      match totalChainE data with
      | .error e => .error e
      | .ok total =>
        match pyLt (.num 0) total with
        | .error e => .error e
        | .ok false => .ok (st2, none)
        | .ok true =>
          match pyLt (.num (newList.length)) total with
          | .error e => .error e
          | .ok true => .ok (st2, none)
          | .ok false =>
            match reconstruct_fragments newList with
            | .error e => .error e
            | .ok r =>
              .ok ({ st2 with fragments := setGroups st2.fragments fid [] }, r.map JVal.str)

/-- One inbound frame: its raw text and the result of `json.loads` on it
(`none` when parsing raises `JSONDecodeError`). -/
structure Frame where
  raw : String
  parsed : Option JVal
  deriving DecidableEq, Repr

/-- `src/client.py` `WebSocketClient.handle_message` (lines 77-131): a
frame that fails JSON parsing is returned unchanged (and not buffered);
otherwise the decoded value is processed by the JSON path. -/
def handle_message (st : ClientState) (fr : Frame) : Except PyErr (ClientState × Option JVal) :=
  match fr.parsed with
  | none => .ok (st, some (.str fr.raw))
  | some data => handleJson st data

/-- Feed a list of already decoded JSON frames through `handle_message`,
collecting the per-frame results (`none` = "still waiting"). -/
def feedJ (st : ClientState) (datas : List JVal) :
    Except PyErr (ClientState × List (Option JVal)) :=
  match datas with
  | [] => .ok (st, [])
  | d :: ds =>
    match handleJson st d with
    | .error e => .error e
    | .ok (st', o) =>
      match feedJ st' ds with
      | .error e => .error e
      | .ok (st'', os) => .ok (st'', o :: os)

/-- Feed a list of raw frames through `handle_message`, collecting the
per-frame results. -/
def feedF (st : ClientState) (frames : List Frame) :
    Except PyErr (ClientState × List (Option JVal)) :=
  match frames with
  | [] => .ok (st, [])
  | fr :: rest =>
    match handle_message st fr with
    | .error e => .error e
    | .ok (st', o) =>
      match feedF st' rest with
      | .error e => .error e
      | .ok (st'', os) => .ok (st'', o :: os)

/-- `src/client.py` `WebSocketClient.run` (lines 145-196) restricted to
message processing: each inbound frame goes through `handle_message`;
`None` results are skipped, non-`None` results are dispatched; an
exception escapes the loop (and `src/main.py` exits on it), so an error
aborts the whole run with no further dispatch. -/
def runFrames (st : ClientState) (frames : List Frame) :
    Except PyErr (ClientState × List JVal) :=
  match frames with
  | [] => .ok (st, [])
  | fr :: rest =>
    match handle_message st fr with
    | .error e => .error e
    | .ok (st', o) =>
      match runFrames st' rest with
      | .error e => .error e
      | .ok (st'', ms) =>
        .ok (st'', (match o with | none => ms | some m => m :: ms))

/-! ### Derived (pure) views of fragment records

These definitions read off the values that the chains above produce on a
well-formed fragment record; they are used to state theorems. -/

/-- Whether a value is a dict. -/
def IsObjB : JVal → Bool
  | .obj _ => true
  | _ => false

/-- The resolved group id of a record (meaningful for dicts, where
`idChainE` cannot raise). -/
def idOfP (w : JVal) : JVal :=
  match idChainE w with
  | .ok v => v
  | .error _ => .str "default"

/-- Whether the record's declared-total chain resolves to a number. -/
def isNumTotal (w : JVal) : Bool :=
  match totalChainE w with
  | .ok (.num _) => true
  | _ => false

/-- The resolved declared total of a record with a numeric total. -/
def totalIntOf (w : JVal) : Int :=
  match totalChainE w with
  | .ok (.num t) => t
  | _ => 0

/-- Whether the record's sequence-key chain resolves to a number. -/
def isNumKey (w : JVal) : Bool :=
  match seqChainE w with
  | .ok (.num _) => true
  | _ => false

/-- The resolved integer sequence key of a record with a numeric key. -/
def keyIntOf (w : JVal) : Int :=
  match seqChainE w with
  | .ok (.num k) => k
  | _ => 0

/-- A well-formed fragment record: a dict that `is_fragmented_message`
accepts, with a numeric declared total and a numeric sequence key. -/
def GoodW (w : JVal) : Prop :=
  IsObjB w = true ∧ is_fragmented_message w = .ok true ∧
    isNumTotal w = true ∧ isNumKey w = true

instance {ε α : Type} [DecidableEq ε] [DecidableEq α] : DecidableEq (Except ε α) := by
  intro a b
  cases a with
  | error e =>
    cases b with
    | error e' =>
      exact if h : e = e' then isTrue (by rw [h]) else
        isFalse (by intro hc; cases hc; exact h rfl)
    | ok v' => exact isFalse (by intro hc; exact Except.noConfusion hc)
  | ok v =>
    cases b with
    | error e' => exact isFalse (by intro hc; exact Except.noConfusion hc)
    | ok v' =>
      exact if h : v = v' then isTrue (by rw [h]) else
        isFalse (by intro hc; cases hc; exact h rfl)

instance (w : JVal) : Decidable (GoodW w) := by
  unfold GoodW; infer_instance

/-- Pure content extraction for a dict record (what `extractE` returns
on a dict). -/
def extractVal (f : JVal) : JVal :=
  pyOr (getNull f "text")
    (pyOr (getNull f "content")
      (pyOr (getNull f "message")
        (pyOr (getNull f "data") (.str (pyStrOf f)))))

/-- The extracted-and-`str()`-converted text of a record. -/
def textOf (f : JVal) : String := pyStrOf (extractVal f)

/-- The state after a fragment of group `fid` is appended (before any
completion check succeeds). -/
def appendSt (st : ClientState) (fid : JVal) (data : JVal) : ClientState :=
  { st with
    fragments := setGroups st.fragments fid (groupOf st fid ++ [data]),
    messageBuffer := st.messageBuffer ++ [data] }

/-- The state after group `fid` completes: accumulator cleared, buffer kept. -/
def clearSt (st : ClientState) (fid : JVal) (data : JVal) : ClientState :=
  { st with
    fragments := setGroups st.fragments fid [],
    messageBuffer := st.messageBuffer ++ [data] }

/-- A fragment record of group `fid` with consistent declared total `t`. -/
def FragOkP (fid : JVal) (t : Int) (f : JVal) : Prop :=
  is_fragmented_message f = .ok true ∧ idChainE f = .ok fid ∧ totalChainE f = .ok (.num t)

instance (fid : JVal) (t : Int) (f : JVal) : Decidable (FragOkP fid t f) := by
  unfold FragOkP; infer_instance

/-! ### Pure view of the sort performed by `reconstruct_fragments` -/

/-- The integer key of a decorated pair (meaningful when the key is a
number, which the lemmas below assume via construction). -/
def pKey (p : JVal × JVal) : Int :=
  match p.2 with
  | .num k => k
  | _ => 0

/-- Pure counterpart of `orderedInsertE` for numeric keys. -/
def pInsert (y : JVal × JVal) : List (JVal × JVal) → List (JVal × JVal)
  | [] => [y]
  | x :: xs => if pKey y < pKey x then y :: x :: xs else x :: pInsert y xs

/-- Pure counterpart of `sortAuxE` for numeric keys. -/
def pSortAux : List (JVal × JVal) → List (JVal × JVal) → List (JVal × JVal)
  | [], acc => acc
  | y :: ys, acc => pSortAux ys (pInsert y acc)

/-- The fragments in the order `reconstruct_fragments` sorts them
(stable ascending by resolved integer sequence key). -/
def sortedOf (frags : List JVal) : List JVal :=
  (pSortAux (frags.map fun f => (f, JVal.num (keyIntOf f))) []).map Prod.fst

/-- A pair whose decoration is a numeric key. -/
def NumSnd (p : JVal × JVal) : Prop := ∃ k, p.2 = .num k

/-- The client state right after `WebSocketClient.__init__` (lines 20-37):
empty `self.fragments` and `self.message_buffer`, with fragment
reconstruction enabled (the default configuration). -/
def initClient : ClientState := { enableFragments := true, fragments := [], messageBuffer := [] }

/-- The three fragments of the end-to-end scenario, in sequence order. -/
def wf1 : JVal := .obj [("id", .str "g1"), ("sequence", .num 1), ("total", .num 3), ("text", .str "a")]

def wf2 : JVal := .obj [("id", .str "g1"), ("sequence", .num 2), ("total", .num 3), ("text", .str "b")]

def wf3 : JVal := .obj [("id", .str "g1"), ("sequence", .num 3), ("total", .num 3), ("text", .str "c")]

/-- First fragment of the C2 scenario: declares total 2. -/
def c2f1 : JVal := .obj [("id", .str "g1"), ("sequence", .num 1), ("total", .num 2), ("text", .str "a")]

/-- Second fragment of the C2 scenario: same group, no total key at all. -/
def c2f2 : JVal := .obj [("id", .str "g1"), ("sequence", .num 2), ("text", .str "b")]

/-- The reconstructed text of a fragment list (what a successful
completion emits): contents in stable ascending key order, joined by
single spaces. -/
def joinedTextOf (frags : List JVal) : String :=
  String.intercalate " " ((sortedOf frags).map textOf)

/-- The completing fragment of the C4 scenario (total 2, sequence 2). -/
def c4f2 : JVal := .obj [("id", .str "g1"), ("sequence", .num 2), ("total", .num 2), ("text", .str "b")]

/-- A state whose `"g1"` group already holds the first fragment. -/
def c4st : ClientState :=
  { enableFragments := true, fragments := [(.str "g1", [c2f1])], messageBuffer := [c2f1] }

/-- The outputs produced in response to the frames addressed to group `g`
(position-matched against the fed fragment list). -/
def selectOuts (g : JVal) (ws : List JVal) (outs : List (Option JVal)) : List (Option JVal) :=
  ((ws.zip outs).filter (fun p => decide (idOfP p.1 = g))).map Prod.snd

/-- Fragments of the isolation scenario: two groups `"A"` and `"B"`. -/
def ia1 : JVal := .obj [("id", .str "A"), ("sequence", .num 1), ("total", .num 2), ("text", .str "x1")]

def ia2 : JVal := .obj [("id", .str "A"), ("sequence", .num 2), ("total", .num 2), ("text", .str "x2")]

def ib1 : JVal := .obj [("id", .str "B"), ("sequence", .num 1), ("total", .num 2), ("text", .str "y1")]

def ib2 : JVal := .obj [("id", .str "B"), ("sequence", .num 2), ("total", .num 2), ("text", .str "y2")]

/-- The completing fragment of the C10 scenario: its sequence key
resolves to the string timestamp. -/
def c10f : JVal := .obj [("id", .str "g1"), ("timestamp", .str "t0"), ("total", .num 2), ("text", .str "b")]

/-! ### `src/utils.py` `extract_json_from_text` and
`src/agent.py` `OllamaAgent.process_message` -/

/-- The `\x7b` brace character (written via `Char.ofNat` throughout). -/
def lbrace : Char := Char.ofNat 123

/-- The `\x7d` brace character. -/
def rbrace : Char := Char.ofNat 125

/-- The regex `\s` class of `re` (ASCII): space, tab, newline, carriage
return, vertical tab, form feed — also Python `str.strip`'s set. -/
def isSpaceRe (c : Char) : Bool :=
  c = ' ' || c = '\t' || c = '\n' || c = '\r' || c = '\x0b' || c = '\x0c'

/-- JSON whitespace accepted between tokens by `json.loads`. -/
def isWsJson (c : Char) : Bool := c = ' ' || c = '\t' || c = '\n' || c = '\r'

/-- Skip JSON whitespace. -/
def skipWs : List Char → List Char
  | [] => []
  | c :: cs => if isWsJson c then skipWs cs else c :: cs

/-- Python `str.strip()`. -/
def pyStrip (s : String) : String :=
  String.mk (((s.toList.dropWhile isSpaceRe).reverse.dropWhile isSpaceRe).reverse)

/-- `re.sub(pat + r'\s*', '', text)` for a literal `pat`: remove each
occurrence of `pat` together with the following whitespace, scanning
left to right (fuelled by the text length). -/
def reSubPat (pat : List Char) : Nat → List Char → List Char
  | 0, l => l
  | _ + 1, [] => []
  | n + 1, c :: cs =>
    if pat.isPrefixOf (c :: cs) then
      reSubPat pat n (((c :: cs).drop pat.length).dropWhile isSpaceRe)
    else c :: reSubPat pat n cs

/-- `src/utils.py` lines 73-75: strip markdown code fences — remove every
occurrence of triple-backtick-`json` plus trailing whitespace, then every
remaining triple backtick plus trailing whitespace. -/
def stripFences (s : String) : String :=
  let l1 := reSubPat "\x60\x60\x60json".toList (s.toList.length + 1) s.toList
  let l2 := reSubPat "\x60\x60\x60".toList (l1.length + 1) l1
  String.mk l2

/-- Value of a decimal digit list. -/
def digitsToNat (ds : List Char) : Nat :=
  ds.foldl (fun acc c => acc * 10 + (c.toNat - 48)) 0

/-- Parse a JSON integer literal (floats and exponents are outside this
model; a leading zero on a multi-digit number is rejected as in JSON). -/
def parseNum (cs : List Char) : Option (JVal × List Char) :=
  let (neg, cs1) :=
    match cs with
    | '-' :: rest => (true, rest)
    | _ => (false, cs)
  let ds := cs1.takeWhile Char.isDigit
  let rest := cs1.dropWhile Char.isDigit
  if ds.isEmpty then none
  else if ds.length > 1 && ds.headD '0' = '0' then none
  else
    match rest with
    | '.' :: _ => none
    | 'e' :: _ => none
    | 'E' :: _ => none
    | _ =>
      let v : Int := (digitsToNat ds : Int)
      some (.num (if neg then -v else v), rest)

/-- Hex digit value. -/
def hexVal (c : Char) : Option Nat :=
  if '0' ≤ c ∧ c ≤ '9' then some (c.toNat - 48)
  else if 'a' ≤ c ∧ c ≤ 'f' then some (c.toNat - 87)
  else if 'A' ≤ c ∧ c ≤ 'F' then some (c.toNat - 55)
  else none

/-- Parse the body of a JSON string literal (opening quote consumed). -/
def parseStrLit : Nat → List Char → List Char → Option (String × List Char)
  | 0, _, _ => none
  | _ + 1, _, [] => none
  | n + 1, acc, c :: cs =>
    if c = '"' then some (String.mk acc.reverse, cs)
    else if c = '\\' then
      match cs with
      | [] => none
      | e :: cs2 =>
        if e = '"' then parseStrLit n ('"' :: acc) cs2
        else if e = '\\' then parseStrLit n ('\\' :: acc) cs2
        else if e = '/' then parseStrLit n ('/' :: acc) cs2
        else if e = 'n' then parseStrLit n ('\n' :: acc) cs2
        else if e = 't' then parseStrLit n ('\t' :: acc) cs2
        else if e = 'r' then parseStrLit n ('\r' :: acc) cs2
        else if e = 'b' then parseStrLit n ('\x08' :: acc) cs2
        else if e = 'f' then parseStrLit n ('\x0c' :: acc) cs2
        else if e = 'u' then
          match cs2 with
          | h1 :: h2 :: h3 :: h4 :: cs3 =>
            match hexVal h1, hexVal h2, hexVal h3, hexVal h4 with
            | some a, some b, some c', some d =>
              parseStrLit n (Char.ofNat (((a * 16 + b) * 16 + c') * 16 + d) :: acc) cs3
            | _, _, _, _ => none
          | _ => none
        else none
    else parseStrLit n (c :: acc) cs

/-- `dict[k] = v` while building an object: replace in place on a
duplicate key (last writer wins, original position kept), else append. -/
def setKV (kvs : List (String × JVal)) (k : String) (v : JVal) : List (String × JVal) :=
  match kvs with
  | [] => [(k, v)]
  | (k', v') :: rest =>
    if k' = k then (k, v) :: rest else (k', v') :: setKV rest k v

mutual

/-- Recursive-descent `json.loads` value parser (fuelled; every
recursive call decreases the fuel, and the fuel passed in by
`jsonLoads` is generous enough for any input that fits in it). -/
def parseVal : Nat → List Char → Option (JVal × List Char)
  | 0, _ => none
  | n + 1, cs =>
    match skipWs cs with
    | [] => none
    | c :: rest =>
      if c = '"' then
        match parseStrLit (rest.length + 1) [] rest with
        | some (s, rest') => some (.str s, rest')
        | none => none
      else if c = lbrace then parseObjBody n rest
      else if c = '[' then parseArrBody n rest
      else if c = 't' then
        match rest with
        | 'r' :: 'u' :: 'e' :: cs2 => some (.bool true, cs2)
        | _ => none
      else if c = 'f' then
        match rest with
        | 'a' :: 'l' :: 's' :: 'e' :: cs2 => some (.bool false, cs2)
        | _ => none
      else if c = 'n' then
        match rest with
        | 'u' :: 'l' :: 'l' :: cs2 => some (.null, cs2)
        | _ => none
      else if c = '-' || c.isDigit then parseNum (c :: rest)
      else none

/-- Object body, opening brace consumed. -/
def parseObjBody : Nat → List Char → Option (JVal × List Char)
  | 0, _ => none
  | n + 1, cs =>
    match skipWs cs with
    | [] => none
    | c :: rest =>
      if c = rbrace then some (.obj [], rest)
      else parseObjItems n [] (c :: rest)

/-- Object members. -/
def parseObjItems : Nat → List (String × JVal) → List Char → Option (JVal × List Char)
  | 0, _, _ => none
  | n + 1, acc, cs =>
    match skipWs cs with
    | '"' :: rest =>
      match parseStrLit (rest.length + 1) [] rest with
      | none => none
      | some (k, cs2) =>
        match skipWs cs2 with
        | ':' :: cs3 =>
          match parseVal n cs3 with
          | none => none
          | some (v, cs4) =>
            match skipWs cs4 with
            | ',' :: cs5 => parseObjItems n (setKV acc k v) cs5
            | d :: cs5 =>
              if d = rbrace then some (.obj (setKV acc k v), cs5) else none
            | [] => none
        | _ => none
    | _ => none

/-- Array body, opening bracket consumed. -/
def parseArrBody : Nat → List Char → Option (JVal × List Char)
  | 0, _ => none
  | n + 1, cs =>
    match skipWs cs with
    | [] => none
    | c :: rest =>
      if c = ']' then some (.arr [], rest)
      else parseArrItems n [] (c :: rest)

/-- Array elements. -/
def parseArrItems : Nat → List JVal → List Char → Option (JVal × List Char)
  | 0, _, _ => none
  | n + 1, acc, cs =>
    match parseVal n cs with
    | none => none
    | some (v, cs2) =>
      match skipWs cs2 with
      | ',' :: cs3 => parseArrItems n (acc ++ [v]) cs3
      | d :: cs3 => if d = ']' then some (.arr (acc ++ [v]), cs3) else none
      | [] => none

end

/-- `json.loads`: parse one value, allow surrounding whitespace, require
nothing else to follow. -/
def jsonLoads (s : String) : Option JVal :=
  match parseVal (4 * (s.toList.length + 1)) s.toList with
  | some (v, rest) => if (skipWs rest).isEmpty then some v else none
  | none => none

/-- `re.findall(r'\x7b[^\x7b\x7d]*\x7d', text)`: non-overlapping
non-nested brace-delimited substrings, left to right. -/
def findall1 : Nat → List Char → List (List Char)
  | 0, _ => []
  | _ + 1, [] => []
  | n + 1, c :: cs =>
    if c = lbrace then
      let mid := cs.takeWhile (fun x => x != lbrace && x != rbrace)
      let rest := cs.dropWhile (fun x => x != lbrace && x != rbrace)
      match rest with
      | d :: r2 =>
        if d = rbrace then (lbrace :: (mid ++ [rbrace])) :: findall1 n r2
        else findall1 n cs
      | [] => findall1 n cs
    else findall1 n cs

/-- Match one singly-nested brace group at the current position (opening
brace already consumed, kept in `acc` reversed); mirrors the
deterministic behaviour of `\x7b(?:[^\x7b\x7d]|(?:\x7b[^\x7b\x7d]*\x7d))*\x7d`. -/
def scanNested : Nat → List Char → List Char → Option (List Char × List Char)
  | 0, _, _ => none
  | _ + 1, _, [] => none
  | n + 1, acc, c :: cs =>
    if c = rbrace then some (acc.reverse ++ [rbrace], cs)
    else if c = lbrace then
      let mid := cs.takeWhile (fun x => x != lbrace && x != rbrace)
      let rest := cs.dropWhile (fun x => x != lbrace && x != rbrace)
      match rest with
      | d :: r2 =>
        if d = rbrace then scanNested n (rbrace :: (mid.reverse ++ (lbrace :: acc))) r2
        else none
      | [] => none
    else scanNested n (c :: acc) cs

/-- `re.findall` for the singly-nested brace pattern. -/
def findall2 : Nat → List Char → List (List Char)
  | 0, _ => []
  | _ + 1, [] => []
  | n + 1, c :: cs =>
    if c = lbrace then
      match scanNested (cs.length + 1) [lbrace] cs with
      | some (m, rest) => m :: findall2 n rest
      | none => findall2 n cs
    else findall2 n cs

/-- One scan loop of `extract_json_from_text`: try `json.loads` on each
match and return the first that parses to a dict. -/
def firstRecord (ms : List (List Char)) : Option JVal :=
  ms.findSome? (fun m =>
    match jsonLoads (String.mk m) with
    | some (.obj kvs) => some (.obj kvs)
    | _ => none)

/-- The non-nested scan step applied to the cleaned text. -/
def scanStep1 (t : String) : Option JVal :=
  firstRecord (findall1 (t.toList.length + 1) t.toList)

/-- The singly-nested scan step applied to the cleaned text. -/
def scanStep2 (t : String) : Option JVal :=
  firstRecord (findall2 (t.toList.length + 1) t.toList)

/-- `src/utils.py` `extract_json_from_text` (lines 62-107): strip code
fences; try a full parse of the stripped text (note: the result is
returned even when it is not a dict); then the first non-nested
brace-delimited dict; then the first singly-nested one; else `None`. -/
def extract_json_from_text (text : String) : Option JVal :=
  let cleaned := stripFences text
  match jsonLoads (pyStrip cleaned) with
  | some v => some v
  | none =>
    match scanStep1 cleaned with
    | some v => some v
    | none => scanStep2 cleaned

/-- `src/agent.py` `OllamaAgent.process_message` (lines 79-106), with the
backend call abstracted to its raw text output (`none` models a failed
or timed-out query).  `query_llm` strips the backend text; a falsy
(empty) response or a falsy extraction result yields `None`. -/
def process_message (backendText : Option String) : Option JVal :=
  match backendText with
  | none => none
  | some raw =>
    let llm_response := pyStrip raw
    if llm_response = "" then none
    else
      match extract_json_from_text llm_response with
      | none => none
      | some v => if v.pyTruthy then some v else none

/-! ### Theorems -/

/-! ### Basic lemmas about the dict of group accumulators -/

theorem lookupGroups_setGroups_eq (d : List (JVal × List JVal)) (k : JVal) (v : List JVal) :
    lookupGroups (setGroups d k v) k = some v := by
  induction d with
  | nil => simp [setGroups, lookupGroups]
  | cons hd tl ih =>
    obtain ⟨k', v'⟩ := hd
    by_cases h : k' = k
    · simp [setGroups, lookupGroups, h]
    · simp [setGroups, lookupGroups, h, ih]

theorem lookupGroups_setGroups_ne (d : List (JVal × List JVal)) (k g : JVal) (v : List JVal)
    (h : g ≠ k) : lookupGroups (setGroups d k v) g = lookupGroups d g := by
  induction d with
  | nil =>
    have hkg : ¬ k = g := fun hc => h hc.symm
    simp [setGroups, lookupGroups, hkg]
  | cons hd tl ih =>
    obtain ⟨k', v'⟩ := hd
    by_cases hk : k' = k
    · subst hk
      have hkg : ¬ k' = g := fun hc => h hc.symm
      simp [setGroups, lookupGroups, hkg]
    · simp only [setGroups, if_neg hk, lookupGroups]
      by_cases hg : k' = g
      · simp [hg]
      · simp [hg, ih]

/-! ### Chain lemmas on dict records -/

theorem dGetD_ok_obj {f : JVal} {k : String} {d v : JVal} (h : dGetD f k d = .ok v) :
    IsObjB f = true := by
  cases f <;> simp [dGetD, IsObjB] at h ⊢

theorem idChainE_ok_obj {f v : JVal} (h : idChainE f = .ok v) : IsObjB f = true := by
  unfold idChainE at h
  cases hm : dGetD f "message_id" (.str "default") with
  | error e => rw [hm] at h; exact absurd h (by simp)
  | ok inner => exact dGetD_ok_obj hm

theorem idChainE_obj (kvs : List (String × JVal)) :
    idChainE (.obj kvs) =
      .ok ((lookupKV kvs "id").getD ((lookupKV kvs "message_id").getD (.str "default"))) := rfl

theorem idChainE_of_obj {f : JVal} (h : IsObjB f = true) :
    idChainE f = .ok (idOfP f) := by
  cases f <;> simp [IsObjB] at h
  rfl

theorem totalChainE_of_isNumTotal {w : JVal} (h : isNumTotal w = true) :
    totalChainE w = .ok (.num (totalIntOf w)) := by
  unfold isNumTotal at h
  unfold totalIntOf
  split at h
  next t heq => rw [heq]
  next => simp at h

theorem seqChainE_of_isNumKey {w : JVal} (h : isNumKey w = true) :
    seqChainE w = .ok (.num (keyIntOf w)) := by
  unfold isNumKey at h
  unfold keyIntOf
  split at h
  next t heq => rw [heq]
  next => simp at h

theorem isNumKey_obj {w : JVal} (h : isNumKey w = true) : IsObjB w = true := by
  unfold isNumKey at h
  split at h
  next t heq =>
    unfold seqChainE at heq
    cases hm : dGetD w "index" (.num 0) with
    | error e => rw [hm] at heq; exact absurd heq (by simp)
    | ok d2 => exact dGetD_ok_obj hm
  next => simp at h

/-! ### Extraction lemmas -/

theorem extractE_obj (kvs : List (String × JVal)) :
    extractE (.obj kvs) = .ok (extractVal (.obj kvs)) := by
  unfold extractE extractVal
  by_cases h1 : (((lookupKV kvs "text").getD .null)).pyTruthy <;>
    by_cases h2 : (((lookupKV kvs "content").getD .null)).pyTruthy <;>
      by_cases h3 : (((lookupKV kvs "message").getD .null)).pyTruthy <;>
        by_cases h4 : (((lookupKV kvs "data").getD .null)).pyTruthy <;>
          simp [dGetD, getNull, pyOr, h1, h2, h3, h4]

theorem pyRepr_obj_ne_empty (kvs : List (String × JVal)) : pyRepr (.obj kvs) ≠ "" := by
  unfold pyRepr
  intro h
  have h2 := congrArg String.data h
  simp [String.append] at h2

theorem extractVal_truthy (kvs : List (String × JVal)) :
    (extractVal (.obj kvs)).pyTruthy = true := by
  unfold extractVal pyOr
  by_cases h1 : (getNull (.obj kvs) "text").pyTruthy
  · simp [h1]
  · by_cases h2 : (getNull (.obj kvs) "content").pyTruthy
    · simp [h1, h2]
    · by_cases h3 : (getNull (.obj kvs) "message").pyTruthy
      · simp [h1, h2, h3]
      · by_cases h4 : (getNull (.obj kvs) "data").pyTruthy
        · simp [h1, h2, h3, h4]
        · have h5 : pyStrOf (.obj kvs) ≠ "" := pyRepr_obj_ne_empty kvs
          simp only [if_neg h1, if_neg h2, if_neg h3, if_neg h4]
          simp [pyTruthy, h5]

/-! ### Step lemmas for `handle_message` on the fragment path -/

theorem setGroups_setGroups (d : List (JVal × List JVal)) (k : JVal) (v w : List JVal) :
    setGroups (setGroups d k v) k w = setGroups d k w := by
  induction d with
  | nil => simp [setGroups]
  | cons hd tl ih =>
    obtain ⟨k', v'⟩ := hd
    by_cases h : k' = k
    · simp [setGroups, h]
    · simp [setGroups, h, ih]

theorem handleJson_frag_wait (st : ClientState) (data fid : JVal) (t : Int)
    (hen : st.enableFragments = true)
    (hf : is_fragmented_message data = .ok true)
    (hid : idChainE data = .ok fid)
    (ht : totalChainE data = .ok (.num t))
    (hcond : t ≤ 0 ∨ ((groupOf st fid).length + 1 : Int) < t) :
    handleJson st data = .ok (appendSt st fid data, none) := by
  have hlen : ((groupOf st fid ++ [data]).length : Int) = ((groupOf st fid).length + 1 : Int) := by
    simp
  rcases hcond with h | h
  · have h0 : pyLt (.num 0) (.num t) = .ok false := by
      simp [pyLt, decide_eq_false_iff_not]
      omega
    simp [handleJson, hen, hf, hid, ht, h0, appendSt, groupOf]
  · have h0 : pyLt (.num 0) (.num t) = .ok true := by
      simp [pyLt, decide_eq_true_eq]
      omega
    have h1 : pyLt (.num ((groupOf st fid ++ [data]).length)) (.num t) = .ok true := by
      simp [pyLt, decide_eq_true_eq]
      omega
    simp [handleJson, hen, hf, hid, ht, h0, groupOf] at h1 ⊢
    simp [h1]
    simp [appendSt, groupOf, hen]

theorem handleJson_frag_complete (st : ClientState) (data fid : JVal) (t : Int)
    (hen : st.enableFragments = true)
    (hf : is_fragmented_message data = .ok true)
    (hid : idChainE data = .ok fid)
    (ht : totalChainE data = .ok (.num t))
    (h1 : 0 < t) (h2 : t ≤ ((groupOf st fid).length + 1 : Int)) :
    handleJson st data =
      match reconstruct_fragments (groupOf st fid ++ [data]) with
      | .error e => .error e
      | .ok r => .ok (clearSt st fid data, r.map JVal.str) := by
  have h0 : pyLt (.num 0) (.num t) = .ok true := by
    simp [pyLt, decide_eq_true_eq]; omega
  have h3 : pyLt (.num ((groupOf st fid ++ [data]).length)) (.num t) = .ok false := by
    simp [pyLt, decide_eq_false_iff_not]
    omega
  simp [handleJson, hen, hf, hid, ht, h0, groupOf] at h3 ⊢
  simp [h3]
  cases hr : reconstruct_fragments ((lookupGroups st.fragments fid).getD [] ++ [data]) with
  | error e => simp
  | ok r => simp [clearSt, setGroups_setGroups, groupOf, hen]

theorem handleJson_nonfrag (st : ClientState) (data : JVal)
    (h : (if st.enableFragments then is_fragmented_message data else .ok false) = .ok false) :
    handleJson st data =
      nonFragResult { st with messageBuffer := st.messageBuffer ++ [data] } data := by
  simp only [handleJson]
  split
  next e heq => rw [h] at heq; exact absurd heq (by simp)
  next heq => rfl
  next heq => rw [h] at heq; exact absurd heq (by simp)

/-- Every successful `handleJson` appends exactly the decoded value to
`message_buffer` and leaves the reconstruction switch unchanged. -/
theorem handleJson_ok_buffer (st : ClientState) (d : JVal) :
    ∀ r, handleJson st d = .ok r →
      r.1.messageBuffer = st.messageBuffer ++ [d] ∧
        r.1.enableFragments = st.enableFragments := by
  intro r h
  simp only [handleJson, nonFragResult] at h
  repeat' split at h
  all_goals simp at h
  all_goals (subst h; exact ⟨by simp, by simp⟩)

theorem appendSt_group_eq (st : ClientState) (fid data : JVal) :
    groupOf (appendSt st fid data) fid = groupOf st fid ++ [data] := by
  simp [appendSt, groupOf, lookupGroups_setGroups_eq]

theorem appendSt_group_ne (st : ClientState) (fid data g : JVal) (h : g ≠ fid) :
    groupOf (appendSt st fid data) g = groupOf st g := by
  simp [appendSt, groupOf, lookupGroups_setGroups_ne _ _ _ _ h]

theorem clearSt_group_eq (st : ClientState) (fid data : JVal) :
    groupOf (clearSt st fid data) fid = [] := by
  simp [clearSt, groupOf, lookupGroups_setGroups_eq]

theorem clearSt_group_ne (st : ClientState) (fid data g : JVal) (h : g ≠ fid) :
    groupOf (clearSt st fid data) g = groupOf st g := by
  simp [clearSt, groupOf, lookupGroups_setGroups_ne _ _ _ _ h]

/-- Feeding an incomplete run of fragments of one group: every call
returns `None` and the group's accumulator grows by exactly the
fragments fed. -/
theorem feedJ_wait (fid : JVal) (t : Int) :
    ∀ (frags : List JVal) (st : ClientState) (acc : List JVal),
      st.enableFragments = true → groupOf st fid = acc →
      (∀ f ∈ frags, FragOkP fid t f) →
      ((acc.length + frags.length : Int) < t) →
      ∃ st', feedJ st frags = .ok (st', List.replicate frags.length none) ∧
        st'.enableFragments = true ∧
        groupOf st' fid = acc ++ frags ∧
        (∀ g, g ≠ fid → groupOf st' g = groupOf st g) ∧
        st'.messageBuffer = st.messageBuffer ++ frags := by
  intro frags
  induction frags with
  | nil =>
    intro st acc hen hacc _ _
    exact ⟨st, by simp [feedJ], hen, by simp [hacc], fun g _ => rfl, by simp⟩
  | cons f fs ih =>
    intro st acc hen hacc hok hbound
    obtain ⟨hf, hid, ht⟩ := hok f (by simp)
    have hstep : handleJson st f = .ok (appendSt st fid f, none) := by
      apply handleJson_frag_wait st f fid t hen hf hid ht
      right
      rw [hacc]
      simp only [List.length_cons] at hbound
      omega
    have hen' : (appendSt st fid f).enableFragments = true := by
      simp [appendSt, hen]
    have hacc' : groupOf (appendSt st fid f) fid = acc ++ [f] := by
      rw [appendSt_group_eq, hacc]
    obtain ⟨st', hfeed, hen'', hgrp, hother, hbuf⟩ :=
      ih (appendSt st fid f) (acc ++ [f]) hen' hacc'
        (fun x hx => hok x (by simp [hx]))
        (by simp only [List.length_append, List.length_cons, List.length_nil] at hbound ⊢
            push_cast; omega)
    refine ⟨st', ?_, hen'', ?_, ?_, ?_⟩
    · simp [feedJ, hstep, hfeed, List.replicate_succ]
    · rw [hgrp]; simp
    · intro g hg
      rw [hother g hg, appendSt_group_ne st fid f g hg]
    · rw [hbuf]; simp [appendSt]

theorem orderedInsertE_num (y : JVal × JVal) (l : List (JVal × JVal))
    (hy : NumSnd y) (hl : ∀ x ∈ l, NumSnd x) :
    orderedInsertE y l = .ok (pInsert y l) := by
  induction l with
  | nil => rfl
  | cons x xs ih =>
    obtain ⟨a, ha⟩ := hy
    obtain ⟨b, hb⟩ := hl x (by simp)
    have hlt : pyLt y.2 x.2 = .ok (decide (a < b)) := by rw [ha, hb]; rfl
    have hka : pKey y = a := by simp [pKey, ha]
    have hkb : pKey x = b := by simp [pKey, hb]
    by_cases hab : a < b
    · simp [orderedInsertE, hlt, hab, pInsert, hka, hkb]
    · simp [orderedInsertE, hlt, hab, pInsert, hka, hkb,
        ih (fun z hz => hl z (by simp [hz]))]

theorem pInsert_perm (y : JVal × JVal) (l : List (JVal × JVal)) :
    (pInsert y l).Perm (y :: l) := by
  induction l with
  | nil => exact List.Perm.refl _
  | cons x xs ih =>
    by_cases h : pKey y < pKey x
    · simp [pInsert, h]
    · simp only [pInsert, if_neg h]
      exact (ih.cons x).trans (List.Perm.swap y x xs)

theorem pInsert_mem {z y : JVal × JVal} {l : List (JVal × JVal)}
    (h : z ∈ pInsert y l) : z = y ∨ z ∈ l := by
  have := (pInsert_perm y l).mem_iff.mp h
  simpa using this

theorem sortAuxE_num (l : List (JVal × JVal)) :
    ∀ acc, (∀ x ∈ l, NumSnd x) → (∀ x ∈ acc, NumSnd x) →
      sortAuxE l acc = .ok (pSortAux l acc) := by
  induction l with
  | nil => intro acc _ _; rfl
  | cons y ys ih =>
    intro acc hl hacc
    have hins := orderedInsertE_num y acc (hl y (by simp)) hacc
    have hmem : ∀ x ∈ pInsert y acc, NumSnd x := by
      intro x hx
      rcases pInsert_mem hx with h | h
      · subst h; exact hl x (by simp)
      · exact hacc x h
    simp [sortAuxE, hins, pSortAux,
      ih (pInsert y acc) (fun z hz => hl z (by simp [hz])) hmem]

theorem pSortAux_perm (l : List (JVal × JVal)) :
    ∀ acc, (pSortAux l acc).Perm (l ++ acc) := by
  induction l with
  | nil => intro acc; simp [pSortAux]
  | cons y ys ih =>
    intro acc
    have h1 := ih (pInsert y acc)
    have h2 : (ys ++ pInsert y acc).Perm (ys ++ y :: acc) :=
      List.Perm.append_left ys (pInsert_perm y acc)
    have h3 : (ys ++ y :: acc).Perm (y :: (ys ++ acc)) :=
      List.perm_middle
    simpa [pSortAux] using (h1.trans (h2.trans h3))

theorem pInsert_pairwise (y : JVal × JVal) (l : List (JVal × JVal))
    (h : l.Pairwise (fun a b => pKey a ≤ pKey b)) :
    (pInsert y l).Pairwise (fun a b => pKey a ≤ pKey b) := by
  induction l with
  | nil => simp [pInsert]
  | cons x xs ih =>
    obtain ⟨hx, hxs⟩ := List.pairwise_cons.mp h
    by_cases hlt : pKey y < pKey x
    · simp only [pInsert, if_pos hlt]
      refine List.pairwise_cons.mpr ⟨?_, h⟩
      intro z hz
      rcases List.mem_cons.mp hz with h1 | h1
      · subst h1; exact le_of_lt hlt
      · exact le_trans (le_of_lt hlt) (hx z h1)
    · simp only [pInsert, if_neg hlt]
      refine List.pairwise_cons.mpr ⟨?_, ih hxs⟩
      intro z hz
      rcases pInsert_mem hz with h1 | h1
      · subst h1; exact le_of_not_lt hlt
      · exact hx z h1

theorem pSortAux_pairwise (l : List (JVal × JVal)) :
    ∀ acc, acc.Pairwise (fun a b => pKey a ≤ pKey b) →
      (pSortAux l acc).Pairwise (fun a b => pKey a ≤ pKey b) := by
  induction l with
  | nil => intro acc h; exact h
  | cons y ys ih =>
    intro acc h
    exact ih (pInsert y acc) (pInsert_pairwise y acc h)

theorem sortedOf_perm (frags : List JVal) : (sortedOf frags).Perm frags := by
  unfold sortedOf
  have h := pSortAux_perm (frags.map fun f => (f, JVal.num (keyIntOf f))) []
  simp only [List.append_nil] at h
  have h2 := h.map Prod.fst
  rw [List.map_map] at h2
  have h3 : List.map (Prod.fst ∘ fun f => (f, JVal.num (keyIntOf f))) frags = frags := by
    have hc : (Prod.fst ∘ fun f => (f, JVal.num (keyIntOf f))) = id := rfl
    rw [hc, List.map_id]
  rwa [h3] at h2

theorem sortedOf_pairwise (frags : List JVal) :
    (sortedOf frags).Pairwise (fun a b => keyIntOf a ≤ keyIntOf b) := by
  unfold sortedOf
  have h := pSortAux_pairwise (frags.map fun f => (f, JVal.num (keyIntOf f))) []
    (by simp)
  rw [List.pairwise_map]
  refine h.imp_of_mem ?_
  intro a b ha hb hab
  have hperm := pSortAux_perm (frags.map fun f => (f, JVal.num (keyIntOf f))) []
  simp only [List.append_nil] at hperm
  have hma := hperm.mem_iff.mp ha
  have hmb := hperm.mem_iff.mp hb
  obtain ⟨fa, _, hfa⟩ := List.mem_map.mp hma
  obtain ⟨fb, _, hfb⟩ := List.mem_map.mp hmb
  have hka : pKey a = keyIntOf a.1 := by rw [← hfa]; simp [pKey]
  have hkb : pKey b = keyIntOf b.1 := by rw [← hfb]; simp [pKey]
  rw [hka, hkb] at hab
  exact hab

/-- Two key-sorted permutations of each other with pairwise-distinct
keys are the same list. -/
theorem sorted_perm_unique {α : Type} (key : α → Int) :
    ∀ (l₁ l₂ : List α), l₁.Perm l₂ →
      l₁.Pairwise (fun a b => key a ≤ key b) →
      l₂.Pairwise (fun a b => key a ≤ key b) →
      l₁.Pairwise (fun a b => key a ≠ key b) →
      l₁ = l₂ := by
  intro l₁
  induction l₁ with
  | nil =>
    intro l₂ hperm _ _ _
    exact (hperm.symm.eq_nil).symm
  | cons a t₁ ih =>
    intro l₂ hperm hs₁ hs₂ hd₁
    cases l₂ with
    | nil => exact absurd hperm.eq_nil (by simp)
    | cons b t₂ =>
      obtain ⟨ha₁, hs₁'⟩ := List.pairwise_cons.mp hs₁
      obtain ⟨hb₂, hs₂'⟩ := List.pairwise_cons.mp hs₂
      obtain ⟨hd₁h, hd₁'⟩ := List.pairwise_cons.mp hd₁
      have hab : a = b := by
        have hbmem : b ∈ a :: t₁ := hperm.mem_iff.mpr (by simp)
        rcases List.mem_cons.mp hbmem with h | hbt₁
        · exact h.symm
        · have h1 : key a ≤ key b := ha₁ b hbt₁
          have hamem : a ∈ b :: t₂ := hperm.mem_iff.mp (by simp)
          rcases List.mem_cons.mp hamem with h | hat₂
          · exact h
          · have h2 : key b ≤ key a := hb₂ a hat₂
            exact absurd (le_antisymm h1 h2) (hd₁h b hbt₁)
      subst hab
      have htail := hperm.cons_inv
      rw [ih t₂ htail hs₁' hs₂' hd₁']

theorem IsObjB_exists {f : JVal} (h : IsObjB f = true) : ∃ kvs, f = .obj kvs := by
  cases f <;> simp [IsObjB] at h ⊢

theorem decorateE_num (frags : List JVal) (h : ∀ f ∈ frags, isNumKey f = true) :
    decorateE frags = .ok (frags.map fun f => (f, JVal.num (keyIntOf f))) := by
  induction frags with
  | nil => rfl
  | cons f fs ih =>
    have hk := seqChainE_of_isNumKey (h f (by simp))
    simp [decorateE, hk, ih (fun x hx => h x (by simp [hx]))]

theorem gatherTexts_obj (ps : List (JVal × JVal)) (h : ∀ p ∈ ps, IsObjB p.1 = true) :
    gatherTexts ps = .ok (ps.map fun p => textOf p.1) := by
  induction ps with
  | nil => rfl
  | cons p ps ih =>
    obtain ⟨kvs, hkvs⟩ := IsObjB_exists (h p (by simp))
    have hext : extractE p.1 = .ok (extractVal p.1) := by rw [hkvs]; exact extractE_obj kvs
    have htr : (extractVal p.1).pyTruthy = true := by rw [hkvs]; exact extractVal_truthy kvs
    simp [gatherTexts, hext, htr, textOf, ih (fun x hx => h x (by simp [hx]))]

/-- On a non-empty group of dict fragments with numeric sequence keys,
`reconstruct_fragments` succeeds and yields the contents in stable
ascending key order, joined by single spaces. -/
theorem reconstruct_fragments_num (frags : List JVal) (hne : frags ≠ [])
    (hnum : ∀ f ∈ frags, isNumKey f = true) :
    reconstruct_fragments frags =
      .ok (some (String.intercalate " " ((sortedOf frags).map textOf))) := by
  have hdec := decorateE_num frags hnum
  have hpairs : ∀ x ∈ (frags.map fun f => (f, JVal.num (keyIntOf f))), NumSnd x := by
    intro x hx
    obtain ⟨f, _, hf⟩ := List.mem_map.mp hx
    exact ⟨keyIntOf f, by rw [← hf]⟩
  have hsort := sortAuxE_num (frags.map fun f => (f, JVal.num (keyIntOf f))) [] hpairs
    (by simp)
  have hperm := pSortAux_perm (frags.map fun f => (f, JVal.num (keyIntOf f))) []
  simp only [List.append_nil] at hperm
  have hobjs : ∀ p ∈ pSortAux (frags.map fun f => (f, JVal.num (keyIntOf f))) [],
      IsObjB p.1 = true := by
    intro p hp
    have := hperm.mem_iff.mp hp
    obtain ⟨f, hfmem, hf⟩ := List.mem_map.mp this
    have := isNumKey_obj (hnum f hfmem)
    rw [← hf]
    exact this
  have hgather := gatherTexts_obj _ hobjs
  have hlen : (pSortAux (frags.map fun f => (f, JVal.num (keyIntOf f))) []).length
      = frags.length := by
    rw [hperm.length_eq, List.length_map]
  have hfrne : frags.isEmpty = false := by
    cases frags with
    | nil => exact absurd rfl hne
    | cons a l => rfl
  have htexts_ne :
      ((pSortAux (frags.map fun f => (f, JVal.num (keyIntOf f))) []).map
        fun p => textOf p.1).isEmpty = false := by
    cases hm : (pSortAux (frags.map fun f => (f, JVal.num (keyIntOf f))) []).map
        (fun p => textOf p.1) with
    | nil =>
      exfalso
      have hc := congrArg List.length hm
      rw [List.length_map, hlen] at hc
      simp at hc
      exact hne hc
    | cons a l => rfl
  rw [reconstruct_fragments, hfrne]
  simp only [Bool.false_eq_true, if_false, hdec, sortByKeyE, hsort, hgather, htexts_ne]
  have hmap : ((pSortAux (frags.map fun f => (f, JVal.num (keyIntOf f))) []).map
      fun p => textOf p.1) = (sortedOf frags).map textOf := by
    rw [sortedOf, List.map_map]
    rfl
  rw [hmap]

theorem feedJ_append (xs ys : List JVal) :
    ∀ st, feedJ st (xs ++ ys) =
      match feedJ st xs with
      | .error e => .error e
      | .ok (st1, o1) =>
        match feedJ st1 ys with
        | .error e => .error e
        | .ok (st2, o2) => .ok (st2, o1 ++ o2) := by
  induction xs with
  | nil =>
    intro st
    simp only [List.nil_append, feedJ]
    cases feedJ st ys with
    | error e => rfl
    | ok p => obtain ⟨st2, o2⟩ := p; rfl
  | cons x xs ih =>
    intro st
    simp only [List.cons_append, feedJ]
    cases handleJson st x with
    | error e => rfl
    | ok p =>
      obtain ⟨st', o⟩ := p
      have hxy : xs.append ys = xs ++ ys := rfl
      rw [hxy]
      simp only [ih]
      cases hxs : feedJ st' xs with
      | error e => rfl
      | ok q =>
        obtain ⟨st1, o1⟩ := q
        cases hys : feedJ st1 ys with
        | error e => simp [hys]
        | ok r => obtain ⟨st2, o2⟩ := r; simp [hys]

theorem feedJ_single (st : ClientState) (z : JVal) :
    feedJ st [z] =
      match handleJson st z with
      | .error e => .error e
      | .ok (st', o) => .ok (st', [o]) := by
  simp only [feedJ]

/-- C1: a complete fragment set with one group key and consistent total
`n > 0`, with pairwise-distinct numeric sequence keys, fed in any order,
yields `None` for the first `n - 1` fragments and, on the `n`-th, exactly
one reconstructed message: the extracted contents joined by single spaces
in ascending sequence-key order. -/
theorem C1_complete_set_reconstructs
    (st : ClientState) (frags : List JVal) (fid : JVal) (n : Nat)
    (hen : st.enableFragments = true)
    (hfresh : groupOf st fid = [])
    (hlen : frags.length = n) (hn : 0 < n)
    (hok : ∀ f ∈ frags, FragOkP fid (n : Int) f)
    (hkeys : ∀ f ∈ frags, isNumKey f = true)
    (hdist : frags.Pairwise (fun a b => keyIntOf a ≠ keyIntOf b)) :
    ∀ sorted, frags.Perm sorted →
      sorted.Pairwise (fun a b => keyIntOf a ≤ keyIntOf b) →
      ∃ st', feedJ st frags = .ok (st',
        List.replicate (n - 1) none ++
          [some (.str (String.intercalate " " (sorted.map textOf)))]) := by
  intro sorted hperm hsorted
  have hdist' : sorted.Pairwise (fun a b => keyIntOf a ≠ keyIntOf b) := by
    refine (List.Perm.pairwise_iff ?_ hperm).mp hdist
    intro a b hab
    exact fun hc => hab hc.symm
  have hsorted_eq : sorted = sortedOf frags :=
    sorted_perm_unique keyIntOf sorted (sortedOf frags)
      (hperm.symm.trans (sortedOf_perm frags).symm)
      hsorted (sortedOf_pairwise frags) hdist'
  rcases List.eq_nil_or_concat frags with hnil | ⟨ys, z, hyz⟩
  · exfalso; rw [hnil] at hlen; simp at hlen; omega
  · rw [List.concat_eq_append] at hyz
    subst hyz
    have hylen : ys.length + 1 = n := by
      simpa using hlen
    obtain ⟨st1, hfeed1, hen1, hgrp1, _, _⟩ :=
      feedJ_wait fid (n : Int) ys st [] hen hfresh
        (fun f hf => hok f (by simp [hf]))
        (by simp; omega)
    have hgrp1' : groupOf st1 fid = ys := by simpa using hgrp1
    obtain ⟨hfz, hidz, htz⟩ := hok z (by simp)
    have hstep := handleJson_frag_complete st1 z fid (n : Int) hen1 hfz hidz htz
      (by exact_mod_cast hn)
      (by rw [hgrp1']; omega)
    rw [hgrp1'] at hstep
    have hrec := reconstruct_fragments_num (ys ++ [z]) (by simp)
      hkeys
    rw [hrec] at hstep
    refine ⟨clearSt st1 fid z, ?_⟩
    rw [feedJ_append ys [z] st, hfeed1]
    simp only [feedJ_single, hstep]
    rw [hsorted_eq]
    have hn1 : n - 1 = ys.length := by omega
    rw [hn1]
    rfl

/-- Witness for C1: the spec's scenario — fragments with sequences 1, 3, 2
arriving in that order yield `None`, `None`, then exactly `"a b c"`. -/
theorem C1_complete_set_reconstructs_witness :
    (∀ f ∈ [wf1, wf3, wf2], FragOkP (.str "g1") (3 : Int) f) ∧
    (∀ f ∈ [wf1, wf3, wf2], isNumKey f = true) ∧
    List.Pairwise (fun a b => keyIntOf a ≠ keyIntOf b) [wf1, wf3, wf2] ∧
    List.Perm [wf1, wf3, wf2] [wf1, wf2, wf3] ∧
    List.Pairwise (fun a b => keyIntOf a ≤ keyIntOf b) [wf1, wf2, wf3] ∧
    (∃ st', feedJ initClient [wf1, wf3, wf2] = .ok (st',
      List.replicate 2 none ++
        [some (.str (String.intercalate " " ([wf1, wf2, wf3].map textOf)))])) ∧
    feedJ initClient [wf1, wf3, wf2] =
      .ok ({ enableFragments := true, fragments := [(.str "g1", [])],
             messageBuffer := [wf1, wf3, wf2] },
        [none, none, some (.str "a b c")]) :=
  ⟨by decide, by decide, by decide, by decide, by decide,
   C1_complete_set_reconstructs initClient [wf1, wf3, wf2] (.str "g1") 3
     (by decide) (by decide) (by decide) (by decide) (by decide) (by decide)
     (by decide) [wf1, wf2, wf3] (by decide) (by decide),
   by decide⟩

/-- C5: while the number of fragments ingested is strictly below the
declared total, `handle_message` returns `None` on every fragment and
the group's accumulator holds exactly the fragments ingested so far. -/
theorem C5_incomplete_never_emits
    (st : ClientState) (fid : JVal) (t : Int) (frags : List JVal)
    (hen : st.enableFragments = true)
    (hfresh : groupOf st fid = [])
    (hok : ∀ f ∈ frags, FragOkP fid t f)
    (hlt : (frags.length : Int) < t) :
    ∀ k ≤ frags.length, ∃ stk,
      feedJ st (frags.take k) = .ok (stk, List.replicate k none) ∧
      groupOf stk fid = frags.take k ∧
      (groupOf stk fid).length = k := by
  intro k hk
  have hklen : (frags.take k).length = k := by
    rw [List.length_take]; omega
  obtain ⟨stk, hfeed, _, hgrp, _, _⟩ :=
    feedJ_wait fid t (frags.take k) st [] hen hfresh
      (fun f hf => hok f (List.take_subset k frags hf))
      (by rw [hklen]; simp; omega)
  have hgrp' : groupOf stk fid = frags.take k := by simpa using hgrp
  exact ⟨stk, by rw [hfeed, hklen], hgrp', by rw [hgrp', hklen]⟩

/-- Witness for C5: two fragments with declared total 5 — both return
`None` and the accumulator length tracks the count. -/
theorem C5_incomplete_never_emits_witness :
    (∀ f ∈ [wf1, wf2], FragOkP (.str "g1") (3 : Int) f) ∧
    ((([wf1, wf2] : List JVal).length : Int) < 3 ∧ 2 ≤ ([wf1, wf2] : List JVal).length) ∧
    (∃ stk, feedJ initClient (([wf1, wf2] : List JVal).take 2) = .ok (stk, List.replicate 2 none) ∧
      groupOf stk (.str "g1") = ([wf1, wf2] : List JVal).take 2 ∧
      (groupOf stk (.str "g1")).length = 2) ∧
    (feedJ initClient [wf1, wf2]).map Prod.snd = .ok [none, none] :=
  ⟨by decide, by decide,
   C5_incomplete_never_emits initClient (.str "g1") 3 [wf1, wf2]
     (by decide) (by decide) (by decide) (by decide) 2 (by decide),
   by decide⟩

/-- C2 counterexample: the group's earlier fragment declared total 2, yet
when the second (2nd = declared-total-th) fragment arrives without a
total key, the total chain resolves to 0 on that fragment and the group
does NOT complete — both ingests return `None`, no `ReconstructedMessage`
is ever produced.  The completion check uses only the fragment currently
being processed, not the most recent fragment that stated a total. -/
theorem C2_counterexample_no_completion :
    totalChainE c2f1 = .ok (.num 2) ∧
    totalChainE c2f2 = .ok (.num 0) ∧
    is_fragmented_message c2f2 = .ok true ∧
    (feedJ initClient [c2f1, c2f2]).map Prod.snd = .ok [none, none] := by
  decide

/-- C2 amended: the declared total compared by the completion check is
the one resolved from the fragment currently being processed (`total`,
else `total_fragments`, else `count`, else 0); a fragment with no
positive resolved total never triggers completion (it is appended and
`None` is returned), and completion happens exactly when the current
fragment's resolved total `t` satisfies `0 < t ≤` the new count. -/
theorem C2_amended_current_fragment_total
    (st : ClientState) (data fid : JVal) (t : Int)
    (hen : st.enableFragments = true)
    (hf : is_fragmented_message data = .ok true)
    (hid : idChainE data = .ok fid)
    (ht : totalChainE data = .ok (.num t)) :
    (t ≤ 0 ∨ ((groupOf st fid).length + 1 : Int) < t →
      handleJson st data = .ok (appendSt st fid data, none)) ∧
    (0 < t → t ≤ ((groupOf st fid).length + 1 : Int) →
      handleJson st data =
        match reconstruct_fragments (groupOf st fid ++ [data]) with
        | .error e => .error e
        | .ok r => .ok (clearSt st fid data, r.map JVal.str)) :=
  ⟨fun h => handleJson_frag_wait st data fid t hen hf hid ht h,
   fun h1 h2 => handleJson_frag_complete st data fid t hen hf hid ht h1 h2⟩

/-- Witness for the amended C2: the fragment with no total key resolves
total 0 and takes the no-completion branch even though the group already
holds a fragment that declared total 2. -/
theorem C2_amended_current_fragment_total_witness :
    (initClient.enableFragments = true ∧
      is_fragmented_message c2f2 = .ok true ∧
      idChainE c2f2 = .ok (.str "g1") ∧
      totalChainE c2f2 = .ok (.num 0)) ∧
    ((0 : Int) ≤ 0 ∨ ((groupOf initClient (.str "g1")).length + 1 : Int) < 0 →
      handleJson initClient c2f2 = .ok (appendSt initClient (.str "g1") c2f2, none)) ∧
    ((0 : Int) < 0 → (0 : Int) ≤ ((groupOf initClient (.str "g1")).length + 1 : Int) →
      handleJson initClient c2f2 =
        match reconstruct_fragments (groupOf initClient (.str "g1") ++ [c2f2]) with
        | .error e => .error e
        | .ok r => .ok (clearSt initClient (.str "g1") c2f2, r.map JVal.str)) ∧
    handleJson initClient c2f2 = .ok (appendSt initClient (.str "g1") c2f2, none) :=
  ⟨⟨by decide, by decide, by decide, by decide⟩,
   (C2_amended_current_fragment_total initClient c2f2 (.str "g1") 0
     (by decide) (by decide) (by decide) (by decide)).1,
   (C2_amended_current_fragment_total initClient c2f2 (.str "g1") 0
     (by decide) (by decide) (by decide) (by decide)).2,
   by decide⟩

/-- One `handle_message` step on a well-formed fragment: it succeeds,
touches only the fragment's own group, and its output and the group's
new accumulator are determined by the old accumulator alone. -/
theorem handleJson_good_step (st : ClientState) (w : JVal)
    (hen : st.enableFragments = true) (hg : GoodW w)
    (hinv : ∀ f ∈ groupOf st (idOfP w), isNumKey f = true) :
    ∃ o st', handleJson st w = .ok (st', o) ∧
      st'.enableFragments = true ∧
      (∀ g, g ≠ idOfP w → groupOf st' g = groupOf st g) ∧
      (∀ f ∈ groupOf st' (idOfP w), isNumKey f = true) ∧
      (¬ (0 < totalIntOf w ∧ totalIntOf w ≤ ((groupOf st (idOfP w)).length + 1 : Int)) →
        o = none ∧ groupOf st' (idOfP w) = groupOf st (idOfP w) ++ [w]) ∧
      ((0 < totalIntOf w ∧ totalIntOf w ≤ ((groupOf st (idOfP w)).length + 1 : Int)) →
        o = some (.str (joinedTextOf (groupOf st (idOfP w) ++ [w]))) ∧
        groupOf st' (idOfP w) = []) := by
  obtain ⟨hobj, hfr, htot, hkey⟩ := hg
  have hid : idChainE w = .ok (idOfP w) := idChainE_of_obj hobj
  have ht : totalChainE w = .ok (.num (totalIntOf w)) := totalChainE_of_isNumTotal htot
  by_cases hc : 0 < totalIntOf w ∧ totalIntOf w ≤ ((groupOf st (idOfP w)).length + 1 : Int)
  · have hrec := reconstruct_fragments_num (groupOf st (idOfP w) ++ [w]) (by simp)
      (by
        intro f hf
        rcases List.mem_append.mp hf with h | h
        · exact hinv f h
        · simp at h; subst h; exact hkey)
    have hstep := handleJson_frag_complete st w (idOfP w) (totalIntOf w)
      hen hfr hid ht hc.1 hc.2
    rw [hrec] at hstep
    refine ⟨some (.str (joinedTextOf (groupOf st (idOfP w) ++ [w]))), clearSt st (idOfP w) w,
      ?_, by simp [clearSt, hen], ?_, ?_, ?_, ?_⟩
    · rw [hstep]; rfl
    · intro g hgne; exact clearSt_group_ne st (idOfP w) w g hgne
    · rw [clearSt_group_eq]; intro f hf; simp at hf
    · intro hnc; exact absurd hc hnc
    · intro _; exact ⟨rfl, clearSt_group_eq st (idOfP w) w⟩
  · have hcond : totalIntOf w ≤ 0 ∨ ((groupOf st (idOfP w)).length + 1 : Int) < totalIntOf w := by
      push_neg at hc
      rcases le_or_lt (totalIntOf w) 0 with h | h
      · exact Or.inl h
      · exact Or.inr (hc h)
    have hstep := handleJson_frag_wait st w (idOfP w) (totalIntOf w)
      hen hfr hid ht hcond
    refine ⟨none, appendSt st (idOfP w) w, hstep, by simp [appendSt, hen], ?_, ?_, ?_, ?_⟩
    · intro g hgne; exact appendSt_group_ne st (idOfP w) w g hgne
    · rw [appendSt_group_eq]
      intro f hf
      rcases List.mem_append.mp hf with h | h
      · exact hinv f h
      · simp at h; subst h; exact hkey
    · intro _; exact ⟨rfl, appendSt_group_eq st (idOfP w) w⟩
    · intro h; exact absurd h hc

/-- Feeding the same single-group fragment list into two states that
agree on that group's accumulator produces identical outputs and leaves
the group's accumulators equal (no other state influences the result). -/
theorem feedJ_pair_local (fid : JVal) :
    ∀ (ys : List JVal) (s1 s2 : ClientState),
      s1.enableFragments = true → s2.enableFragments = true →
      (∀ y ∈ ys, GoodW y ∧ idOfP y = fid) →
      groupOf s1 fid = groupOf s2 fid →
      (∀ f ∈ groupOf s1 fid, isNumKey f = true) →
      ∃ s1' s2' os, feedJ s1 ys = .ok (s1', os) ∧ feedJ s2 ys = .ok (s2', os) ∧
        groupOf s1' fid = groupOf s2' fid := by
  intro ys
  induction ys with
  | nil =>
    intro s1 s2 _ _ _ heq _
    exact ⟨s1, s2, [], rfl, rfl, heq⟩
  | cons y ys ih =>
    intro s1 s2 hen1 hen2 hys heq hkeys
    obtain ⟨hgw, hidy⟩ := hys y (by simp)
    obtain ⟨o1, s1', hs1, hen1', hother1, hinv1, hwait1, hcomp1⟩ :=
      handleJson_good_step s1 y hen1 hgw (by rw [hidy]; exact hkeys)
    obtain ⟨o2, s2', hs2, hen2', hother2, hinv2, hwait2, hcomp2⟩ :=
      handleJson_good_step s2 y hen2 hgw (by rw [hidy, ← heq]; exact hkeys)
    rw [hidy] at hinv1 hwait1 hcomp1 hinv2 hwait2 hcomp2
    by_cases hc : 0 < totalIntOf y ∧ totalIntOf y ≤ ((groupOf s1 fid).length + 1 : Int)
    · obtain ⟨ho1, hg1⟩ := hcomp1 hc
      obtain ⟨ho2, hg2⟩ := hcomp2 (by rw [← heq]; exact hc)
      have ho12 : o2 = o1 := by rw [ho1, ho2, heq]
      obtain ⟨s1'', s2'', os, hf1, hf2, heq'⟩ := ih s1' s2' hen1' hen2'
        (fun z hz => hys z (by simp [hz]))
        (by rw [hg1, hg2])
        (by rw [hg1]; intro f hf; simp at hf)
      refine ⟨s1'', s2'', o1 :: os, ?_, ?_, heq'⟩
      · simp [feedJ, hs1, hf1]
      · simp [feedJ, hs2, hf2, ho12]
    · obtain ⟨ho1, hg1⟩ := hwait1 hc
      obtain ⟨ho2, hg2⟩ := hwait2 (by rw [← heq]; exact hc)
      have ho12 : o2 = o1 := by rw [ho1, ho2]
      obtain ⟨s1'', s2'', os, hf1, hf2, heq'⟩ := ih s1' s2' hen1' hen2'
        (fun z hz => hys z (by simp [hz]))
        (by rw [hg1, hg2, heq])
        (by
          rw [hg1]
          intro f hf
          rcases List.mem_append.mp hf with h | h
          · exact hkeys f h
          · simp at h; subst h; exact hgw.2.2.2)
      refine ⟨s1'', s2'', o1 :: os, ?_, ?_, heq'⟩
      · simp [feedJ, hs1, hf1]
      · simp [feedJ, hs2, hf2, ho12]

/-- C4: when a fragment completes its group, `handle_message` returns the
reconstruction of exactly the accumulated fragments plus the completing
one, and in the same step clears the group's accumulator; afterwards the
group key behaves exactly like a fresh, empty group: feeding any further
fragments of that group from the cleared state and from any other state
with an empty accumulator produces identical outputs. -/
theorem C4_atomic_clear_fresh_restart
    (st : ClientState) (data fid : JVal) (g : List JVal)
    (hen : st.enableFragments = true)
    (hg : GoodW data) (hid : idOfP data = fid)
    (hgrp : groupOf st fid = g)
    (hkeys : ∀ f ∈ g ++ [data], isNumKey f = true)
    (h1 : 0 < totalIntOf data) (h2 : totalIntOf data ≤ (g.length + 1 : Int)) :
    handleJson st data = .ok (clearSt st fid data, some (.str (joinedTextOf (g ++ [data])))) ∧
    groupOf (clearSt st fid data) fid = [] ∧
    (∀ ys st2, st2.enableFragments = true →
      (∀ y ∈ ys, GoodW y ∧ idOfP y = fid) →
      groupOf st2 fid = [] →
      ∃ s1' s2' os, feedJ (clearSt st fid data) ys = .ok (s1', os) ∧
        feedJ st2 ys = .ok (s2', os) ∧ groupOf s1' fid = groupOf s2' fid) := by
  obtain ⟨hobj, hfr, htot, hkey⟩ := hg
  have hidc : idChainE data = .ok fid := by rw [← hid]; exact idChainE_of_obj hobj
  have ht : totalChainE data = .ok (.num (totalIntOf data)) := totalChainE_of_isNumTotal htot
  have hrec := reconstruct_fragments_num (g ++ [data]) (by simp) hkeys
  have hstep := handleJson_frag_complete st data fid (totalIntOf data)
    hen hfr hidc ht h1 (by rw [hgrp]; exact h2)
  rw [hgrp, hrec] at hstep
  refine ⟨by rw [hstep]; rfl, clearSt_group_eq st fid data, ?_⟩
  intro ys st2 hen2 hys hfresh2
  exact feedJ_pair_local fid ys (clearSt st fid data) st2
    (by simp [clearSt, hen]) hen2 hys
    (by rw [clearSt_group_eq, hfresh2])
    (by rw [clearSt_group_eq]; intro f hf; simp at hf)

/-- Witness for C4: the completing fragment reconstructs `"a b"` and
clears the group in the same step. -/
theorem C4_atomic_clear_fresh_restart_witness :
    (c4st.enableFragments = true ∧ GoodW c4f2 ∧ idOfP c4f2 = .str "g1" ∧
      groupOf c4st (.str "g1") = [c2f1] ∧
      (∀ f ∈ [c2f1] ++ [c4f2], isNumKey f = true) ∧
      0 < totalIntOf c4f2 ∧ totalIntOf c4f2 ≤ (([c2f1] : List JVal).length + 1 : Int)) ∧
    (handleJson c4st c4f2 = .ok (clearSt c4st (.str "g1") c4f2,
        some (.str (joinedTextOf ([c2f1] ++ [c4f2])))) ∧
      groupOf (clearSt c4st (.str "g1") c4f2) (.str "g1") = [] ∧
      (∀ ys st2, st2.enableFragments = true →
        (∀ y ∈ ys, GoodW y ∧ idOfP y = .str "g1") →
        groupOf st2 (.str "g1") = [] →
        ∃ s1' s2' os, feedJ (clearSt c4st (.str "g1") c4f2) ys = .ok (s1', os) ∧
          feedJ st2 ys = .ok (s2', os) ∧ groupOf s1' (.str "g1") = groupOf s2' (.str "g1"))) ∧
    handleJson c4st c4f2 =
      .ok (ClientState.mk true [(.str "g1", [])] [c2f1, c4f2], some (.str "a b")) :=
  ⟨⟨by decide, by decide, by decide, by decide, by decide, by decide, by decide⟩,
   C4_atomic_clear_fresh_restart c4st c4f2 (.str "g1") [c2f1]
     (by decide) (by decide) (by decide) (by decide) (by decide) (by decide) (by decide),
   by decide⟩

/-- Projection: feeding an interleaved stream and feeding only the
fragments of group `g` (into any state agreeing on `g`'s accumulator)
produce the same outputs at `g`'s positions and the same final `g`
accumulator — frames of other groups neither read nor mutate it. -/
theorem feedJ_project (g : JVal) :
    ∀ (ws : List JVal) (st stg : ClientState),
      st.enableFragments = true → stg.enableFragments = true →
      (∀ w ∈ ws, GoodW w) →
      groupOf st g = groupOf stg g →
      (∀ w ∈ ws, ∀ f ∈ groupOf st (idOfP w), isNumKey f = true) →
      (∀ f ∈ groupOf st g, isNumKey f = true) →
      ∃ stF outs stg' outsg,
        feedJ st ws = .ok (stF, outs) ∧
        feedJ stg (ws.filter (fun w => decide (idOfP w = g))) = .ok (stg', outsg) ∧
        selectOuts g ws outs = outsg ∧
        groupOf stF g = groupOf stg' g := by
  intro ws
  induction ws with
  | nil =>
    intro st stg _ _ _ heq _ _
    exact ⟨st, [], stg, [], rfl, rfl, rfl, heq⟩
  | cons w ws ih =>
    intro st stg hen heng hws heq hinvs hinvg
    have hgw : GoodW w := hws w (by simp)
    obtain ⟨o1, st', hs1, hen', hother1, hinv1, hwait1, hcomp1⟩ :=
      handleJson_good_step st w hen hgw (hinvs w (by simp))
    have hgrp' : groupOf st' (idOfP w) = [] ∨
        groupOf st' (idOfP w) = groupOf st (idOfP w) ++ [w] := by
      by_cases hc : 0 < totalIntOf w ∧
          totalIntOf w ≤ ((groupOf st (idOfP w)).length + 1 : Int)
      · exact Or.inl (hcomp1 hc).2
      · exact Or.inr (hwait1 hc).2
    have hinvs' : ∀ w' ∈ ws, ∀ f ∈ groupOf st' (idOfP w'), isNumKey f = true := by
      intro w' hw' f hf
      by_cases hid : idOfP w' = idOfP w
      · rw [hid] at hf
        rcases hgrp' with h | h
        · rw [h] at hf; simp at hf
        · rw [h] at hf
          rcases List.mem_append.mp hf with hm | hm
          · exact hinvs w (by simp) f hm
          · simp at hm; subst hm; exact hgw.2.2.2
      · rw [hother1 (idOfP w') hid] at hf
        exact hinvs w' (by simp [hw']) f hf
    by_cases he : idOfP w = g
    · subst he
      obtain ⟨o2, stg', hs2, heng', hother2, hinv2, hwait2, hcomp2⟩ :=
        handleJson_good_step stg w heng hgw (by rw [← heq]; exact hinvg)
      have ho12 : o2 = o1 ∧ groupOf st' (idOfP w) = groupOf stg' (idOfP w) := by
        by_cases hc : 0 < totalIntOf w ∧
            totalIntOf w ≤ ((groupOf st (idOfP w)).length + 1 : Int)
        · obtain ⟨ha1, hb1⟩ := hcomp1 hc
          obtain ⟨ha2, hb2⟩ := hcomp2 (by rw [← heq]; exact hc)
          exact ⟨by rw [ha1, ha2, heq], by rw [hb1, hb2]⟩
        · obtain ⟨ha1, hb1⟩ := hwait1 hc
          obtain ⟨ha2, hb2⟩ := hwait2 (by rw [← heq]; exact hc)
          exact ⟨by rw [ha1, ha2], by rw [hb1, hb2, heq]⟩
      obtain ⟨stF, outs, stg'', outsg, hf1, hf2, hsel, hgf⟩ :=
        ih st' stg' hen' heng' (fun z hz => hws z (by simp [hz]))
          ho12.2 hinvs' (hinv1)
      refine ⟨stF, o1 :: outs, stg'', o1 :: outsg, ?_, ?_, ?_, hgf⟩
      · simp [feedJ, hs1, hf1]
      · have hfil : (w :: ws).filter (fun x => decide (idOfP x = idOfP w)) =
            w :: ws.filter (fun x => decide (idOfP x = idOfP w)) := by
          simp [List.filter]
        rw [hfil]
        simp [feedJ, hs2, ho12.1, hf2]
      · simp [selectOuts, List.zip, List.filter, hsel]
        exact hsel
    · obtain ⟨stF, outs, stg'', outsg, hf1, hf2, hsel, hgf⟩ :=
        ih st' stg hen' heng (fun z hz => hws z (by simp [hz]))
          (by rw [hother1 g (fun hc => he hc.symm)]; exact heq)
          hinvs'
          (by rw [hother1 g (fun hc => he hc.symm)]; exact hinvg)
      refine ⟨stF, o1 :: outs, stg'', outsg, ?_, ?_, ?_, hgf⟩
      · simp [feedJ, hs1, hf1]
      · have hfil : (w :: ws).filter (fun x => decide (idOfP x = g)) =
            ws.filter (fun x => decide (idOfP x = g)) := by
          simp [List.filter, he]
        rw [hfil, hf2]
      · simp [selectOuts, List.zip, List.filter, he]
        exact hsel

/-- C3: group isolation.  For any interleaving of well-formed fragments
addressed to two distinct groups `A` and `B` (both starting empty),
the interleaved run succeeds, the outputs at `A`'s (resp. `B`'s)
positions equal the outputs of feeding only `A`'s (resp. `B`'s)
fragments from the same starting state, and the final accumulator of
each group matches its isolated run — no cross-contamination. -/
theorem C3_group_isolation
    (A B : JVal) (st : ClientState) (ws : List JVal)
    (hen : st.enableFragments = true)
    (hA : groupOf st A = []) (hB : groupOf st B = [])
    (hws : ∀ w ∈ ws, GoodW w ∧ (idOfP w = A ∨ idOfP w = B)) :
    ∃ stF outs stA outsA stB outsB,
      feedJ st ws = .ok (stF, outs) ∧
      feedJ st (ws.filter (fun w => decide (idOfP w = A))) = .ok (stA, outsA) ∧
      feedJ st (ws.filter (fun w => decide (idOfP w = B))) = .ok (stB, outsB) ∧
      selectOuts A ws outs = outsA ∧
      selectOuts B ws outs = outsB ∧
      groupOf stF A = groupOf stA A ∧
      groupOf stF B = groupOf stB B := by
  have hinvs : ∀ w ∈ ws, ∀ f ∈ groupOf st (idOfP w), isNumKey f = true := by
    intro w hw f hf
    rcases (hws w hw).2 with h | h <;> rw [h] at hf
    · rw [hA] at hf; simp at hf
    · rw [hB] at hf; simp at hf
  obtain ⟨stF, outs, stA, outsA, hf, hfA, hselA, hgA⟩ :=
    feedJ_project A ws st st hen hen (fun w hw => (hws w hw).1) rfl hinvs
      (by rw [hA]; intro f hf; simp at hf)
  obtain ⟨stF', outs', stB, outsB, hf', hfB, hselB, hgB⟩ :=
    feedJ_project B ws st st hen hen (fun w hw => (hws w hw).1) rfl hinvs
      (by rw [hB]; intro f hf; simp at hf)
  rw [hf] at hf'
  obtain ⟨h1, h2⟩ := Prod.mk.inj (Except.ok.inj hf')
  subst h1
  subst h2
  exact ⟨stF, outs, stA, outsA, stB, outsB, hf, hfA, hfB, hselA, hselB, hgA, hgB⟩

/-- Witness for C3: the interleaving `A1 B1 A2 B2` reconstructs
`"x1 x2"` and `"y1 y2"` exactly as the two isolated runs do. -/
theorem C3_group_isolation_witness :
    (initClient.enableFragments = true ∧
      groupOf initClient (.str "A") = [] ∧ groupOf initClient (.str "B") = [] ∧
      (∀ w ∈ [ia1, ib1, ia2, ib2], GoodW w ∧ (idOfP w = .str "A" ∨ idOfP w = .str "B"))) ∧
    (∃ stF outs stA outsA stB outsB,
      feedJ initClient [ia1, ib1, ia2, ib2] = .ok (stF, outs) ∧
      feedJ initClient (([ia1, ib1, ia2, ib2] : List JVal).filter
        (fun w => decide (idOfP w = .str "A"))) = .ok (stA, outsA) ∧
      feedJ initClient (([ia1, ib1, ia2, ib2] : List JVal).filter
        (fun w => decide (idOfP w = .str "B"))) = .ok (stB, outsB) ∧
      selectOuts (.str "A") [ia1, ib1, ia2, ib2] outs = outsA ∧
      selectOuts (.str "B") [ia1, ib1, ia2, ib2] outs = outsB ∧
      groupOf stF (.str "A") = groupOf stA (.str "A") ∧
      groupOf stF (.str "B") = groupOf stB (.str "B")) ∧
    (feedJ initClient [ia1, ib1, ia2, ib2]).map Prod.snd =
      .ok [none, none, some (.str "x1 x2"), some (.str "y1 y2")] ∧
    (feedJ initClient [ia1, ia2]).map Prod.snd = .ok [none, some (.str "x1 x2")] ∧
    (feedJ initClient [ib1, ib2]).map Prod.snd = .ok [none, some (.str "y1 y2")] :=
  ⟨⟨by decide, by decide, by decide, by decide⟩,
   C3_group_isolation (.str "A") (.str "B") initClient [ia1, ib1, ia2, ib2]
     (by decide) (by decide) (by decide) (by decide),
   by decide, by decide, by decide⟩

/-- C8: if every fragment of the group yields empty (falsy) extracted
content, reconstruction returns no message.  (In this code the final
extraction fallback `str(frag)` is never empty for a dict record, so the
hypothesis can only hold for an empty accumulator — the "completed but
empty" branch of `reconstruct_fragments` is otherwise unreachable.) -/
theorem C8_empty_contents_no_message
    (frags : List JVal)
    (h : ∀ f ∈ frags, ∃ v, extractE f = .ok v ∧ v.pyTruthy = false) :
    reconstruct_fragments frags = .ok none := by
  have hnil : frags = [] := by
    cases frags with
    | nil => rfl
    | cons f fs =>
      exfalso
      obtain ⟨v, hv, hfalse⟩ := h f (by simp)
      have hobj : IsObjB f = true := by
        unfold extractE at hv
        cases hm : dGetD f "text" .null with
        | error e => rw [hm] at hv; simp at hv
        | ok t => exact dGetD_ok_obj hm
      obtain ⟨kvs, hkvs⟩ := IsObjB_exists hobj
      rw [hkvs, extractE_obj] at hv
      have htr := extractVal_truthy kvs
      have hveq := Except.ok.inj hv
      rw [← hveq] at hfalse
      rw [htr] at hfalse
      exact Bool.noConfusion hfalse
  rw [hnil]
  rfl

/-- Witness for C8: the only accumulator satisfying the hypothesis is the
empty one, on which `reconstruct_fragments` indeed returns `None`. -/
theorem C8_empty_contents_no_message_witness :
    (∀ f ∈ ([] : List JVal), ∃ v, extractE f = .ok v ∧ v.pyTruthy = false) ∧
    reconstruct_fragments [] = .ok none :=
  ⟨by simp, C8_empty_contents_no_message [] (by simp)⟩

theorem handle_message_ok_buffer (st : ClientState) (fr : Frame) :
    ∀ r, handle_message st fr = .ok r →
      r.1.messageBuffer = st.messageBuffer ++ fr.parsed.toList := by
  intro r h
  unfold handle_message at h
  cases hp : fr.parsed with
  | none =>
    rw [hp] at h
    have := Except.ok.inj h
    rw [← this]
    simp [Option.toList]
  | some d =>
    rw [hp] at h
    have hb := handleJson_ok_buffer st d r h
    rw [hb.1]
    simp [Option.toList]

/-- C9: every frame that parses as JSON is appended to
`self.message_buffer` and nothing is ever removed: after any successful
sequence of `handle_message` calls the buffer equals the old buffer plus
all parsed frames, in arrival order (fragment records included, even
after their group completed and its accumulator was cleared). -/
theorem C9_message_buffer_append_only :
    ∀ (frames : List Frame) (st st' : ClientState) (outs : List (Option JVal)),
      feedF st frames = .ok (st', outs) →
      st'.messageBuffer = st.messageBuffer ++ frames.filterMap (fun fr => fr.parsed) := by
  intro frames
  induction frames with
  | nil =>
    intro st st' outs h
    simp only [feedF] at h
    obtain ⟨h1, _⟩ := Prod.mk.inj (Except.ok.inj h)
    rw [← h1]
    simp
  | cons fr frames ih =>
    intro st st' outs h
    simp only [feedF] at h
    cases hm : handle_message st fr with
    | error e => rw [hm] at h; exact absurd h (by simp)
    | ok p =>
      obtain ⟨st1, o⟩ := p
      rw [hm] at h
      have h' : (match feedF st1 frames with
        | .error e => (.error e : Except PyErr (ClientState × List (Option JVal)))
        | .ok (st'', os) => .ok (st'', o :: os)) = .ok (st', outs) := h
      cases hf : feedF st1 frames with
      | error e => rw [hf] at h'; exact absurd h' (by simp)
      | ok q =>
        obtain ⟨st2, os⟩ := q
        rw [hf] at h'
        obtain ⟨h1, _⟩ := Prod.mk.inj (Except.ok.inj h')
        have hb1 := handle_message_ok_buffer st fr (st1, o) hm
        have hb2 := ih st1 st2 os hf
        rw [← h1, hb2, hb1]
        cases hp : fr.parsed <;> simp [hp, List.filterMap_cons, Option.toList]

/-- Witness for C9: a non-JSON frame is not buffered; a JSON frame and a
fragment frame are, and the fragment record stays in the buffer after
its group completes. -/
theorem C9_message_buffer_append_only_witness :
    feedF initClient
      [Frame.mk "plain" none,
       Frame.mk "\x7b\"total\": 1, \"text\": \"a\"\x7d"
         (some (.obj [("total", .num 1), ("text", .str "a")]))] =
      .ok (ClientState.mk true [(.str "default", [])]
        [.obj [("total", .num 1), ("text", .str "a")]],
        [some (.str "plain"), some (.str "a")]) ∧
    (ClientState.mk true [(.str "default", [])]
        [.obj [("total", .num 1), ("text", .str "a")]]).messageBuffer =
      initClient.messageBuffer ++
        ([Frame.mk "plain" none,
          Frame.mk "\x7b\"total\": 1, \"text\": \"a\"\x7d"
            (some (.obj [("total", .num 1), ("text", .str "a")]))].filterMap
          (fun fr => fr.parsed)) :=
  ⟨by decide,
   C9_message_buffer_append_only
     [Frame.mk "plain" none,
      Frame.mk "\x7b\"total\": 1, \"text\": \"a\"\x7d"
        (some (.obj [("total", .num 1), ("text", .str "a")]))]
     initClient
     (ClientState.mk true [(.str "default", [])]
       [.obj [("total", .num 1), ("text", .str "a")]])
     [some (.str "plain"), some (.str "a")]
     (by decide)⟩

theorem decorateE_ok (l : List JVal) (h : ∀ f ∈ l, ∃ v, seqChainE f = .ok v) :
    ∃ ps, decorateE l = .ok ps := by
  induction l with
  | nil => exact ⟨[], rfl⟩
  | cons f fs ih =>
    obtain ⟨v, hv⟩ := h f (by simp)
    obtain ⟨ps, hps⟩ := ih (fun x hx => h x (by simp [hx]))
    exact ⟨(f, v) :: ps, by simp [decorateE, hv, hps]⟩

/-- The sort raises `TypeError` as soon as a string key is inserted after
a numeric key. -/
theorem sortAuxE_num_then_str (x y : JVal × JVal) (a : Int) (s : String)
    (rest : List (JVal × JVal)) (hx : x.2 = .num a) (hy : y.2 = .str s) :
    sortAuxE (x :: y :: rest) [] = .error .typeError := by
  have hlt : pyLt y.2 x.2 = .error .typeError := by rw [hx, hy]; rfl
  simp [sortAuxE, orderedInsertE, hlt]

/-- A group whose first fragment resolved a numeric sequence key and
whose second resolved a string key makes `reconstruct_fragments` raise
the comparison `TypeError`. -/
theorem reconstruct_fragments_mixed_keys (f1 f2 : JVal) (rest : List JVal)
    (a : Int) (s : String)
    (h1 : seqChainE f1 = .ok (.num a)) (h2 : seqChainE f2 = .ok (.str s))
    (hrest : ∀ f ∈ rest, ∃ v, seqChainE f = .ok v) :
    reconstruct_fragments (f1 :: f2 :: rest) = .error .typeError := by
  obtain ⟨ps, hps⟩ := decorateE_ok rest hrest
  have hdec : decorateE (f1 :: f2 :: rest) =
      .ok ((f1, .num a) :: (f2, .str s) :: ps) := by
    simp [decorateE, h1, h2, hps]
  have hsort := sortAuxE_num_then_str (f1, .num a) (f2, .str s) a s ps rfl rfl
  rw [reconstruct_fragments]
  simp only [List.isEmpty_cons, Bool.false_eq_true, if_false, hdec, sortByKeyE, hsort]

/-- C10: when a group holds a fragment with a numeric sequence key and
the completing fragment resolves its key to a string (e.g. only a
timestamp), the sort inside `reconstruct_fragments` raises `TypeError`;
the exception propagates out of `handle_message`, so the session loop
terminates with an error and no message is produced. -/
theorem C10_incomparable_keys_crash
    (st : ClientState) (f1 data fid : JVal) (a : Int) (s : String) (t : Int)
    (hen : st.enableFragments = true)
    (hgrp : groupOf st fid = [f1])
    (hk1 : seqChainE f1 = .ok (.num a))
    (hf : is_fragmented_message data = .ok true)
    (hid : idChainE data = .ok fid)
    (ht : totalChainE data = .ok (.num t))
    (hk2 : seqChainE data = .ok (.str s))
    (h1 : 0 < t) (h2 : t ≤ 2) :
    handleJson st data = .error .typeError ∧
    (∀ raw, runFrames st [Frame.mk raw (some data)] = .error .typeError) := by
  have hstep := handleJson_frag_complete st data fid t hen hf hid ht h1
    (by rw [hgrp]; simpa using h2)
  rw [hgrp] at hstep
  have hrec : reconstruct_fragments ([f1] ++ [data]) = .error .typeError :=
    reconstruct_fragments_mixed_keys f1 data [] a s hk1 hk2
      (by intro f hf'; simp at hf')
  rw [hrec] at hstep
  have hstep' : handleJson st data = .error .typeError := by rw [hstep]
  refine ⟨hstep', ?_⟩
  intro raw
  simp [runFrames, handle_message, hstep']

/-- Witness for C10: with `[c2f1]` (integer key 1) accumulated, the
timestamp-keyed completing fragment makes the whole run error out. -/
theorem C10_incomparable_keys_crash_witness :
    (c4st.enableFragments = true ∧ groupOf c4st (.str "g1") = [c2f1] ∧
      seqChainE c2f1 = .ok (.num 1) ∧
      is_fragmented_message c10f = .ok true ∧
      idChainE c10f = .ok (.str "g1") ∧
      totalChainE c10f = .ok (.num 2) ∧
      seqChainE c10f = .ok (.str "t0") ∧
      (0 : Int) < 2 ∧ (2 : Int) ≤ 2) ∧
    (handleJson c4st c10f = .error .typeError ∧
      (∀ raw, runFrames c4st [Frame.mk raw (some c10f)] = .error .typeError)) ∧
    runFrames c4st [Frame.mk "frame" (some c10f)] = .error .typeError :=
  ⟨⟨by decide, by decide, by decide, by decide, by decide, by decide, by decide,
    by decide, by decide⟩,
   C10_incomparable_keys_crash c4st c2f1 c10f (.str "g1") 1 "t0" 2
     (by decide) (by decide) (by decide) (by decide) (by decide) (by decide)
     (by decide) (by decide) (by decide),
   by decide⟩

/-- C6 counterexample: the frame `"hello"` (raw text `"\"hello\""`) is
valid JSON but not a mapping.  The claim says it is classified PlainText
and returned as the raw frame string unchanged; instead the code buffers
the decoded value and returns the `str()` conversion `hello`, which
differs from the raw frame text and mutates the state. -/
theorem C6_counterexample_nonmapping_json :
    handle_message initClient (Frame.mk "\"hello\"" (some (.str "hello"))) =
      .ok (ClientState.mk true [] [.str "hello"], some (.str "hello")) ∧
    (JVal.str "hello") ≠ (JVal.str "\"hello\"") ∧
    (ClientState.mk true [] [JVal.str "hello"]) ≠ initClient := by
  refine ⟨by decide, by decide, by decide⟩

/-- C6 amended: only frames whose text fails JSON parsing are classified
PlainText and returned as the raw string unchanged with no state change.
A frame that parses as JSON but not as a mapping is never treated as
PlainText; with fragment reconstruction enabled, its fate depends on the
value: a bare number, boolean, or null raises `TypeError` inside
`is_fragmented_message` (`'fragment' in data` on a non-container), a
string or array that the fragment heuristic matches raises
`AttributeError` at `data.get`, and a string or array that the heuristic
rejects is appended to the message buffer and returned through Python
`str()` conversion — for a JSON string, its unquoted value. -/
theorem C6_amended_plaintext_only_on_parse_failure (st : ClientState) :
    (∀ raw : String, handle_message st (Frame.mk raw none) = .ok (st, some (.str raw))) ∧
    (∀ v : JVal, st.enableFragments = true →
      (v = .null ∨ (∃ b, v = .bool b) ∨ (∃ n, v = .num n)) →
      handleJson st v = .error .typeError) ∧
    (∀ s : String, st.enableFragments = true →
      is_fragmented_message (.str s) = .ok true →
      handleJson st (.str s) = .error .attributeError) ∧
    (∀ xs : List JVal, st.enableFragments = true →
      is_fragmented_message (.arr xs) = .ok true →
      handleJson st (.arr xs) = .error .attributeError) ∧
    (∀ s : String, st.enableFragments = true →
      is_fragmented_message (.str s) = .ok false →
      handleJson st (.str s) =
        .ok ({ st with messageBuffer := st.messageBuffer ++ [.str s] }, some (.str s))) ∧
    (∀ xs : List JVal, st.enableFragments = true →
      is_fragmented_message (.arr xs) = .ok false →
      handleJson st (.arr xs) =
        .ok ({ st with messageBuffer := st.messageBuffer ++ [.arr xs] },
          some (.str (pyStrOf (.arr xs))))) := by
  refine ⟨?_, ?_, ?_, ?_, ?_, ?_⟩
  · intro raw; rfl
  · intro v hen hv
    rcases hv with h | ⟨b, h⟩ | ⟨n, h⟩ <;> subst h
    · simp [handleJson, hen, show is_fragmented_message .null = .error .typeError from rfl]
    · simp [handleJson, hen,
        show is_fragmented_message (.bool b) = .error .typeError from rfl]
    · simp [handleJson, hen,
        show is_fragmented_message (.num n) = .error .typeError from rfl]
  · intro s hen hfrag
    simp [handleJson, hen, hfrag,
      show idChainE (.str s) = .error .attributeError from rfl]
  · intro xs hen hfrag
    simp [handleJson, hen, hfrag,
      show idChainE (.arr xs) = .error .attributeError from rfl]
  · intro s hen hfrag
    have h : (if st.enableFragments then is_fragmented_message (.str s) else .ok false)
        = .ok false := by rw [hen]; exact hfrag
    rw [handleJson_nonfrag st (.str s) h]
    rfl
  · intro xs hen hfrag
    have h : (if st.enableFragments then is_fragmented_message (.arr xs) else .ok false)
        = .ok false := by rw [hen]; exact hfrag
    rw [handleJson_nonfrag st (.arr xs) h]
    rfl

/-- Witness for the amended C6: a parse-failure frame comes back verbatim
with the state untouched; the bare number `5` raises `TypeError`; the
fragment-matching string and array raise `AttributeError`; the JSON
string `"hello"` and the array `[1]` are buffered and returned through
`str()` conversion. -/
theorem C6_amended_plaintext_only_on_parse_failure_witness :
    handle_message initClient (Frame.mk "not json" none) =
      .ok (initClient, some (.str "not json")) ∧
    (initClient.enableFragments = true ∧
      (JVal.num 5 = .null ∨ (∃ b, JVal.num 5 = .bool b) ∨ (∃ n, JVal.num 5 = .num n))) ∧
    handleJson initClient (.num 5) = .error .typeError ∧
    is_fragmented_message (.str "sequence x") = .ok true ∧
    handleJson initClient (.str "sequence x") = .error .attributeError ∧
    is_fragmented_message (.arr [.str "sequence"]) = .ok true ∧
    handleJson initClient (.arr [.str "sequence"]) = .error .attributeError ∧
    is_fragmented_message (.str "hello") = .ok false ∧
    handleJson initClient (.str "hello") =
      .ok ({ initClient with
        messageBuffer := initClient.messageBuffer ++ [.str "hello"] }, some (.str "hello")) ∧
    is_fragmented_message (.arr [.num 1]) = .ok false ∧
    handleJson initClient (.arr [.num 1]) =
      .ok ({ initClient with
        messageBuffer := initClient.messageBuffer ++ [.arr [.num 1]] },
        some (.str (pyStrOf (.arr [.num 1])))) ∧
    pyStrOf (.arr [.num 1]) = "[1]" :=
  ⟨(C6_amended_plaintext_only_on_parse_failure initClient).1 "not json",
   ⟨by decide, Or.inr (Or.inr ⟨5, rfl⟩)⟩,
   (C6_amended_plaintext_only_on_parse_failure initClient).2.1 (.num 5) (by decide)
     (Or.inr (Or.inr ⟨5, rfl⟩)),
   by decide,
   (C6_amended_plaintext_only_on_parse_failure initClient).2.2.1 "sequence x"
     (by decide) (by decide),
   by decide,
   (C6_amended_plaintext_only_on_parse_failure initClient).2.2.2.1 [.str "sequence"]
     (by decide) (by decide),
   by decide,
   (C6_amended_plaintext_only_on_parse_failure initClient).2.2.2.2.1 "hello"
     (by decide) (by decide),
   by decide,
   (C6_amended_plaintext_only_on_parse_failure initClient).2.2.2.2.2 [.num 1]
     (by decide) (by decide),
   by decide⟩

/-- C7 counterexample: backend text `"5"` contains no brace-delimited
substring, and none of the three steps parses it into a structured
record — yet the full-parse step returns the bare number, so
`extract_json_from_text` does not return `None` and `process_message`
returns `5` instead of failing with MalformedReply. -/
theorem C7_counterexample_bare_number :
    jsonLoads (pyStrip (stripFences "5")) = some (.num 5) ∧
    scanStep1 (stripFences "5") = none ∧
    scanStep2 (stripFences "5") = none ∧
    findall1 ("5".toList.length + 1) "5".toList = [] ∧
    extract_json_from_text "5" = some (.num 5) ∧
    process_message (some "5") = some (.num 5) ∧
    process_message (some "5") ≠ none := by
  refine ⟨by decide, by decide, by decide, by decide, by decide, by decide, by decide⟩

/-- C7 amended: when the full-parse step fails to parse at all (not
merely to parse a record) and neither brace scan yields a record —
in particular for any text with no brace-delimited substring whose
stripped text is not itself valid JSON — extraction returns `None` and
`process_message` produces no reply (MalformedReply).  When the full
parse succeeds, its value is returned even if it is not a record. -/
theorem C7_amended_malformed_reply (r : String)
    (ha : jsonLoads (pyStrip (stripFences (pyStrip r))) = none)
    (hb : scanStep1 (stripFences (pyStrip r)) = none)
    (hc : scanStep2 (stripFences (pyStrip r)) = none) :
    extract_json_from_text (pyStrip r) = none ∧ process_message (some r) = none := by
  have hext : extract_json_from_text (pyStrip r) = none := by
    simp only [extract_json_from_text]
    rw [ha, hb, hc]
  refine ⟨hext, ?_⟩
  unfold process_message
  by_cases he : pyStrip r = ""
  · simp [he]
  · simp [he, hext]

/-- Witness for the amended C7: `"hello world"` has no braces and is not
JSON, so extraction and reply generation both fail. -/
theorem C7_amended_malformed_reply_witness :
    (jsonLoads (pyStrip (stripFences (pyStrip "hello world"))) = none ∧
      scanStep1 (stripFences (pyStrip "hello world")) = none ∧
      scanStep2 (stripFences (pyStrip "hello world")) = none) ∧
    (extract_json_from_text (pyStrip "hello world") = none ∧
      process_message (some "hello world") = none) :=
  ⟨⟨by decide, by decide, by decide⟩,
   C7_amended_malformed_reply "hello world" (by decide) (by decide) (by decide)⟩
